import Mathlib

/-!
# Buddy page allocator (`src/buddy.c`)

A shallow embedding of the allocator and the properties proved about it.

Modelling conventions.

* The C globals `memory_base`, `total_pages`, `free_areas`, `page_blocks`
  become the fields of `State`; every function takes the state and returns
  the new one.
* `free_areas` and `page_blocks` are arrays.  They are modelled as functions
  on indices together with an explicit bounds check at every access:
  `page_blocks[i]` needs `i < total_pages` (the `malloc` of `init_page`),
  `free_areas[r]` needs `r ≤ MAXRANK`.  An access outside the bounds is
  undefined behaviour in C; the model returns `none` there, and also when a
  loop exhausts its fuel.
* The link fields `next`, `prev`, `head`, `tail` are `void *` holding
  `(void *)(long)page_idx`; `NULL` is `0`, so the link value of page 0 and
  the null link are the same number, exactly as in the source.
* Addresses are integers.  In the address translation the 32-bit `int`
  products with `PAGE_SIZE` are wrapped explicitly (`wrap32`), their sum with
  `memory_base` is a 64-bit pointer sum (`ptr_add`), the `long` offset is
  wrapped to 64 bits (`wrap64`) and divided towards zero, and the quotient
  is returned as an `int`.
* Page indices, ranks and counts use unbounded `Nat`/`Int`.  The largest index sum the source forms is
  `current_page + block_size` in `init_page`, at most `pgcount + 2^15`; it
  fits an `int` for every `pgcount` up to `2^31 - 2^15 - 1`.
* `queued` is a history variable: for every free area the indices handed to
  `list_add` and not yet handed to `list_remove`.  No operation reads it.
-/

namespace Buddy

/-- The constant `MAXRANK` (`#define MAXRANK 16`). -/
def MAXRANK : Nat := 16

/-- The constant `PAGE_SIZE` (`#define PAGE_SIZE (4 * 1024)`). -/
def PAGE_SIZE : Int := 4 * 1024

/-- Modelled from the spec: `OK` of the missing header buddy.h, the success
code of `init_page` and `return_pages`. -/
def OK : Int := 0

/-- Modelled from the spec: `EINVAL` of the missing header buddy.h
(`InvalidArgument`), returned negated. -/
def EINVAL : Int := 22

/-- Modelled from the spec: `ENOSPC` of the missing header buddy.h
(`OutOfSpace`), returned negated. -/
def ENOSPC : Int := 28

/-- Modelled from the spec: the value of a `void *` result of `alloc_pages`,
either the address of a page or a pointer-tagged error code (the `ERR_PTR`
macro of the missing header buddy.h). -/
inductive void_ptr where
  | addr (a : Int)
  | err (code : Int)
deriving DecidableEq, Repr

/-- Modelled from the spec: `ERR_PTR` of the missing header buddy.h, tagging
an error code as a pointer. -/
def ERR_PTR (code : Int) : void_ptr := void_ptr.err code

/-- The type `struct free_area`: `head`, `tail` (0 is `NULL`) and `count`. -/
structure free_area_t where
  head : Nat
  tail : Nat
  count : Int
deriving DecidableEq, Repr

/-- The type `struct page_block`: `next`, `prev` (0 is `NULL`), `rank`,
`is_allocated`. -/
structure page_block_t where
  next : Nat
  prev : Nat
  rank : Nat
  is_allocated : Bool
deriving DecidableEq, Repr

/-- The global variables of buddy.c, plus the history variable `queued`. -/
structure State where
  memory_base : Int
  total_pages : Nat
  free_areas : Nat → free_area_t
  page_blocks : Nat → page_block_t
  queued : Nat → List Nat

/-- The array store `f[i] = v`. -/
def setAt {α : Type} (f : Nat → α) (i : Nat) (v : α) : Nat → α :=
  fun j => if j = i then v else f j

/-- Two's complement wrap of a 32-bit `int`. -/
def wrap32 (x : Int) : Int := (x + 2 ^ 31) % 2 ^ 32 - 2 ^ 31

/-- Two's complement wrap of a 64-bit `long`. -/
def wrap64 (x : Int) : Int := (x + 2 ^ 63) % 2 ^ 64 - 2 ^ 63

/-- The pointer sum `p + off` of a 64-bit address and an `int` offset: the
sum modulo `2^64`.  The address `p` is taken below `2^64 - 2^31`, as a
user-space address is, so the sum leaves the address range only below zero,
for a negative offset. -/
def ptr_add (p off : Int) : Int :=
  if off < 0 ∧ p + off < 0 then p + off + 2 ^ 64 else p + off

/-- The function `get_page_index`.  The product `total_pages * PAGE_SIZE` is
an `int`, its sum with `memory_base` a pointer, `offset` a `long` divided as
C divides (towards zero), and the quotient is returned as an `int`. -/
def get_page_index (s : State) (p : Int) : Int :=
  if p < s.memory_base ∨
      p ≥ ptr_add s.memory_base (wrap32 ((s.total_pages : Int) * PAGE_SIZE)) then -1
  else
    let offset := wrap64 (p - s.memory_base)
    if Int.tmod offset PAGE_SIZE ≠ 0 then -1
    else wrap32 (Int.tdiv offset PAGE_SIZE)

/-- The function `get_page_addr`: `memory_base + idx * PAGE_SIZE`, the
product being an `int` and the sum a pointer. -/
def get_page_addr (s : State) (idx : Nat) : Int :=
  ptr_add s.memory_base (wrap32 ((idx : Int) * PAGE_SIZE))

/-- The stores of `list_add(&free_areas[area], page_idx)`. -/
def list_add_state (s : State) (area page_idx : Nat) : State :=
  let a := s.free_areas area
  let pb1 := setAt s.page_blocks page_idx { (s.page_blocks page_idx) with next := 0, prev := a.tail }
  let pb2 := if a.tail ≠ 0 then setAt pb1 a.tail { (pb1 a.tail) with next := page_idx } else pb1
  let hd := if a.head = 0 then page_idx else a.head
  { s with
    page_blocks := pb2
    free_areas := setAt s.free_areas area { head := hd, tail := page_idx, count := a.count + 1 }
    queued := setAt s.queued area (s.queued area ++ [page_idx]) }

/-- The call `list_add(&free_areas[area], page_idx)`: defined when `free_areas[area]`,
`page_blocks[page_idx]` and, for a non-null tail, `page_blocks[tail_idx]` are
inside their arrays. -/
def list_add (s : State) (area page_idx : Nat) : Option State :=
  if area ≤ MAXRANK ∧ page_idx < s.total_pages ∧
      ((s.free_areas area).tail ≠ 0 → (s.free_areas area).tail < s.total_pages) then
    some (list_add_state s area page_idx)
  else none

/-- The stores of `list_remove(&free_areas[area], page_idx)`. -/
def list_remove_state (s : State) (area page_idx : Nat) : State :=
  let a := s.free_areas area
  let prev := (s.page_blocks page_idx).prev
  let next := (s.page_blocks page_idx).next
  let pb1 := if prev ≠ 0 then setAt s.page_blocks prev { (s.page_blocks prev) with next := next }
    else s.page_blocks
  let hd := if prev ≠ 0 then a.head else next
  let pb2 := if next ≠ 0 then setAt pb1 next { (pb1 next) with prev := prev } else pb1
  let tl := if next ≠ 0 then a.tail else prev
  let pb3 := setAt pb2 page_idx { (pb2 page_idx) with next := 0, prev := 0 }
  { s with
    page_blocks := pb3
    free_areas := setAt s.free_areas area { head := hd, tail := tl, count := a.count - 1 }
    queued := setAt s.queued area ((s.queued area).erase page_idx) }

/-- The call `list_remove(&free_areas[area], page_idx)`: defined when
`free_areas[area]`, `page_blocks[page_idx]` and, for non-null links,
`page_blocks[prev_idx]` and `page_blocks[next_idx]` are inside their arrays. -/
def list_remove (s : State) (area page_idx : Nat) : Option State :=
  if area ≤ MAXRANK ∧ page_idx < s.total_pages ∧
      ((s.page_blocks page_idx).prev ≠ 0 → (s.page_blocks page_idx).prev < s.total_pages) ∧
      ((s.page_blocks page_idx).next ≠ 0 → (s.page_blocks page_idx).next < s.total_pages) then
    some (list_remove_state s area page_idx)
  else none

/-- The function `get_buddy_index`: `page_idx ^ (1 << (rank - 1))`. -/
def get_buddy_index (page_idx rank : Nat) : Nat :=
  page_idx ^^^ (1 <<< (rank - 1))

/-- The `while` loop of `init_page` for one rank: carve blocks of that rank
while they fit.  Returns the state and the cursor `current_page`. -/
def init_carve : Nat → State → Nat → Nat → Option (State × Nat)
  | 0, s, rank, current_page =>
    if current_page + 1 <<< (rank - 1) ≤ s.total_pages then none else some (s, current_page)
  | fuel + 1, s, rank, current_page =>
    if current_page + 1 <<< (rank - 1) ≤ s.total_pages then
      let s1 := { s with page_blocks := setAt s.page_blocks current_page { (s.page_blocks current_page) with rank := rank } }
      match list_add s1 rank current_page with
      | none => none
      | some s2 => init_carve fuel s2 rank (current_page + 1 <<< (rank - 1))
    else some (s, current_page)

/-- The loop `for (rank = n; rank >= 1; rank--)` of `init_page`. -/
def init_ranks : Nat → State → Nat → Option (State × Nat)
  | 0, s, current_page => some (s, current_page)
  | rank + 1, s, current_page =>
    match init_carve s.total_pages s (rank + 1) current_page with
    | none => none
    | some (s1, current_page1) => init_ranks rank s1 current_page1

/-- The state after the two reset loops of `init_page`. -/
def init_reset (p : Int) (pgcount : Nat) : State :=
  { memory_base := p
    total_pages := pgcount
    free_areas := fun _ => { head := 0, tail := 0, count := 0 }
    page_blocks := fun _ => { next := 0, prev := 0, rank := 0, is_allocated := false }
    queued := fun _ => [] }

/-- The function `init_page(p, pgcount)`; `malloc` is taken to succeed and
`pgcount` not to be negative. -/
def init_page (p : Int) (pgcount : Nat) : Option (Int × State) :=
  match init_ranks MAXRANK (init_reset p pgcount) 0 with
  | none => none
  | some (s, _) => some (OK, s)

/-- The first loop of `alloc_pages`: the first rank from `current_rank` up
whose count is not zero, or `MAXRANK + 1`. -/
def alloc_scan (s : State) : Nat → Nat → Option Nat
  | 0, current_rank =>
    if current_rank ≤ MAXRANK ∧ (s.free_areas current_rank).count = 0 then none
    else some current_rank
  | fuel + 1, current_rank =>
    if current_rank ≤ MAXRANK ∧ (s.free_areas current_rank).count = 0 then
      alloc_scan s fuel (current_rank + 1)
    else some current_rank

/-- The split loop of `alloc_pages`: `while (current_rank > rank)`. -/
def alloc_split : Nat → State → Nat → Nat → Nat → Option State
  | 0, s, current_rank, rank, _ => if current_rank > rank then none else some s
  | fuel + 1, s, current_rank, rank, page_idx =>
    if current_rank > rank then
      let current_rank1 := current_rank - 1
      let buddy_idx := page_idx + 1 <<< (current_rank1 - 1)
      if buddy_idx < s.total_pages then
        let s1 := { s with page_blocks := setAt s.page_blocks buddy_idx { (s.page_blocks buddy_idx) with rank := current_rank1 } }
        match list_add s1 current_rank1 buddy_idx with
        | none => none
        | some s2 => alloc_split fuel s2 current_rank1 rank page_idx
      else none
    else some s

/-- What `alloc_pages` has decided before it returns. -/
inductive alloc_outcome where
  | invalid
  | nospace
  | page (page_idx : Nat)
deriving DecidableEq, Repr

/-- Lines 118-143 of `alloc_pages`: everything but the final translation of
`page_idx` into an address.  The last store, to `page_blocks[page_idx]`, is
inside the array whenever the `list_remove` of the same page was. -/
def alloc_pages_idx (s : State) (rank : Int) : Option (alloc_outcome × State) :=
  if rank < 1 ∨ rank > (MAXRANK : Int) then some (alloc_outcome.invalid, s)
  else
    match alloc_scan s (MAXRANK + 1) rank.toNat with
    | none => none
    | some current_rank =>
      if current_rank > MAXRANK then some (alloc_outcome.nospace, s)
      else
        let page_idx := (s.free_areas current_rank).head
        match list_remove s current_rank page_idx with
        | none => none
        | some s1 =>
          match alloc_split MAXRANK s1 current_rank rank.toNat page_idx with
          | none => none
          | some s2 =>
            some (alloc_outcome.page page_idx,
              { s2 with page_blocks := setAt s2.page_blocks page_idx { (s2.page_blocks page_idx) with rank := rank.toNat, is_allocated := true } })

/-- The function `alloc_pages(rank)`: `alloc_pages_idx`, then the translation of
`page_idx` by `get_page_addr` (line 145). -/
def alloc_pages (s : State) (rank : Int) : Option (void_ptr × State) :=
  match alloc_pages_idx s rank with
  | none => none
  | some (alloc_outcome.invalid, s1) => some (ERR_PTR (-EINVAL), s1)
  | some (alloc_outcome.nospace, s1) => some (ERR_PTR (-ENOSPC), s1)
  | some (alloc_outcome.page page_idx, s1) => some (void_ptr.addr (get_page_addr s1 page_idx), s1)

/-- The coalescing loop of `return_pages`.  Returns the state, `page_idx`
and `rank` at loop exit. -/
def return_merge : Nat → State → Nat → Nat → Option (State × Nat × Nat)
  | 0, s, page_idx, rank => if rank < MAXRANK then none else some (s, page_idx, rank)
  | fuel + 1, s, page_idx, rank =>
    if rank < MAXRANK then
      if rank = 0 then none
      else
        let buddy_idx := get_buddy_index page_idx rank
        if ¬ buddy_idx < s.total_pages then some (s, page_idx, rank)
        else if (s.page_blocks buddy_idx).is_allocated = true ∨ (s.page_blocks buddy_idx).rank ≠ rank then
          some (s, page_idx, rank)
        else
          match list_remove s rank buddy_idx with
          | none => none
          | some s1 =>
            let page_idx1 := if page_idx > buddy_idx then buddy_idx else page_idx
            return_merge fuel
              { s1 with page_blocks := setAt s1.page_blocks page_idx1 { (s1.page_blocks page_idx1) with rank := rank + 1 } }
              page_idx1 (rank + 1)
    else some (s, page_idx, rank)

/-- Lines 150-180 of `return_pages`: everything after the translation of
the address into `page_idx`. -/
def return_pages_idx (s : State) (page_idx : Int) : Option (Int × State) :=
  if page_idx < 0 then some (-EINVAL, s)
  else if ¬ page_idx.toNat < s.total_pages then none
  else if (s.page_blocks page_idx.toNat).is_allocated = false then some (-EINVAL, s)
  else
    let s1 := { s with page_blocks := setAt s.page_blocks page_idx.toNat { (s.page_blocks page_idx.toNat) with is_allocated := false } }
    match return_merge MAXRANK s1 page_idx.toNat (s1.page_blocks page_idx.toNat).rank with
    | none => none
    | some (s2, page_idx2, rank2) =>
      match list_add s2 rank2 page_idx2 with
      | none => none
      | some s3 => some (OK, s3)

/-- The function `return_pages(p)`: the translation of `p` by `get_page_index`
(line 149), then `return_pages_idx`. -/
def return_pages (s : State) (p : Int) : Option (Int × State) :=
  return_pages_idx s (get_page_index s p)

/-- The function `query_ranks(p)`. -/
def query_ranks (s : State) (p : Int) : Option Int :=
  let page_idx := get_page_index s p
  if page_idx < 0 then some (-EINVAL)
  else if ¬ page_idx.toNat < s.total_pages then none
  else some ((s.page_blocks page_idx.toNat).rank : Int)

/-- The function `query_page_counts(rank)`. -/
def query_page_counts (s : State) (rank : Int) : Int :=
  if rank < 1 ∨ rank > (MAXRANK : Int) then -EINVAL
  else (s.free_areas rank.toNat).count

/-- A call of the public interface after `init_page`. -/
inductive Call where
  | alloc (rank : Int)
  | free (p : Int)
deriving DecidableEq, Repr

/-- What a call returned: the pointer of `alloc_pages` or the code of
`return_pages`. -/
inductive Ret where
  | ptr (p : void_ptr)
  | code (c : Int)
deriving DecidableEq, Repr

/-- One call. -/
def call (s : State) : Call → Option (Ret × State)
  | Call.alloc rank =>
    match alloc_pages s rank with
    | none => none
    | some (p, s1) => some (Ret.ptr p, s1)
  | Call.free p =>
    match return_pages s p with
    | none => none
    | some (c, s1) => some (Ret.code c, s1)

/-- A sequence of calls, with what each returned. -/
def run (s : State) : List Call → Option (List Ret × State)
  | [] => some ([], s)
  | c :: cs =>
    match call s c with
    | none => none
    | some (r, s1) =>
      match run s1 cs with
      | none => none
      | some (rs, s2) => some (r :: rs, s2)

/-- The calls after `init_page(p, pgcount)`. -/
def session (p : Int) (pgcount : Nat) (cs : List Call) : Option (List Ret × State) :=
  match init_page p pgcount with
  | none => none
  | some (_, s) => run s cs

/-- The counts of ranks 1..MAXRANK. -/
def counts (s : State) : List Int :=
  (List.range MAXRANK).map (fun i => query_page_counts s ((i : Int) + 1))

/-- Pages in the free lists: the sum over ranks 1..MAXRANK of
`free_areas[r].count * 2^(r-1)`. -/
def free_page_total (s : State) : Int :=
  ((List.range MAXRANK).map (fun i => (s.free_areas (i + 1)).count * 2 ^ i)).sum

/-- Pages in allocated blocks: the sum of `2^(rank-1)` over the pages whose
`is_allocated` flag is set. -/
def allocated_page_total (s : State) : Int :=
  ((List.range s.total_pages).map (fun p =>
    if (s.page_blocks p).is_allocated = true then (2 : Int) ^ ((s.page_blocks p).rank - 1) else 0)).sum

/-- The same state with another base address. -/
def rebase (s : State) (b : Int) : State := { s with memory_base := b }

/-- The second state has the base address, the page count and the
`is_allocated` flags of the first. -/
def same_alloc (s s1 : State) : Prop :=
  s1.memory_base = s.memory_base ∧ s1.total_pages = s.total_pages ∧
    ∀ i, (s1.page_blocks i).is_allocated = (s.page_blocks i).is_allocated

/-- The effect of one call and its result on whether address `a` is live:
returned by `alloc_pages` and not released by a successful `return_pages`
since. -/
def live_step (a : Int) (b : Bool) (c : Call) (r : Ret) : Bool :=
  match c, r with
  | Call.alloc _, Ret.ptr (void_ptr.addr a1) => if a1 = a then true else b
  | Call.free p, Ret.code code => if p = a ∧ code = OK then false else b
  | _, _ => b

/-- Whether address `a` is live after the calls `cs` with results `rs`,
when it was live or not (`b`) before them. -/
def live_from (a : Int) : Bool → List Call → List Ret → Bool
  | b, c :: cs, r :: rs => live_from a (live_step a b c r) cs rs
  | b, _, _ => b

/-- Whether address `a` is live after a session: some `alloc_pages` call
returned it, and no `return_pages` call on it has returned `OK` since the
last such call.  An address that is not live was never returned by
`alloc_pages`, or has been released since it was last returned. -/
def live_after (a : Int) (cs : List Call) (rs : List Ret) : Bool :=
  live_from a false cs rs

/-- Every page with its `is_allocated` flag set, of an index whose byte
offset fits an `int`, has a live address (`l` tells which addresses are
live). -/
def flags_live (s : State) (l : Int → Bool) : Prop :=
  ∀ i : Nat, (i : Int) * PAGE_SIZE < 2 ^ 31 → (s.page_blocks i).is_allocated = true →
    l (s.memory_base + (i : Int) * PAGE_SIZE) = true

/-- The pages of `l`, all non-null and inside the array, are chained by
their `prev` and `next` links in this order, the first one's `prev` being
`p` and the last one's `next` being null. -/
def Linked (pb : Nat → page_block_t) (n : Nat) : Nat → List Nat → Prop
  | _, [] => True
  | p, x :: xs =>
    x ≠ 0 ∧ x < n ∧ (pb x).prev = p ∧ (pb x).next = xs.headD 0 ∧ Linked pb n x xs

/-- What the fields of `free_areas[k]` and the links say when the free area
holds the non-null pages `l`, in list order, and, when `z` is set, page 0
besides: page 0 is then linked to nothing and is found through a null
`head` once `l` is used up. -/
structure AreaRep (s : State) (k : Nat) (l : List Nat) (z : Bool) : Prop where
  head_eq : (s.free_areas k).head = l.headD 0
  tail_eq : (s.free_areas k).tail = l.getLastD 0
  count_eq : (s.free_areas k).count = (l.length : Int) + (if z = true then 1 else 0)
  linked : Linked s.page_blocks s.total_pages 0 l
  nodup : l.Nodup
  zero : z = true → 0 < s.total_pages ∧ (s.page_blocks 0).next = 0 ∧ (s.page_blocks 0).prev = 0

/-- The free areas of `s` hold exactly the blocks of `F`: `F k p` says that
the block of rank `k` at page `p` is in free area `k`. -/
def Rep (s : State) (F : Nat → Nat → Prop) : Prop :=
  ∃ (L : Nat → List Nat) (z : Nat → Bool),
    (∀ k, AreaRep s k (L k) (z k)) ∧ ∀ k p, F k p ↔ (p ∈ L k ∨ (p = 0 ∧ z k = true))

/-- The pages of a free list read from page `x` by following the `next`
links, at most `fuel` of them; the null link ends the list. -/
def read_list (pb : Nat → page_block_t) : Nat → Nat → List Nat
  | 0, _ => []
  | fuel + 1, x => if x = 0 then [] else x :: read_list pb fuel (pb x).next

/-- The blocks of free area `k` read from its `head` by following the
`next` links. -/
def area_blocks (s : State) (k : Nat) : List Nat :=
  read_list s.page_blocks s.total_pages (s.free_areas k).head

/-- Every link of the state (`head`, `tail`, `next`, `prev`) is null or the
index of a page of the region. -/
def links_ok (s : State) : Prop :=
  (∀ k, ((s.free_areas k).head ≠ 0 → (s.free_areas k).head < s.total_pages) ∧
    ((s.free_areas k).tail ≠ 0 → (s.free_areas k).tail < s.total_pages)) ∧
  ∀ i, ((s.page_blocks i).next ≠ 0 → (s.page_blocks i).next < s.total_pages) ∧
    ((s.page_blocks i).prev ≠ 0 → (s.page_blocks i).prev < s.total_pages)

/-- Every stored rank is at most MAXRANK, and at least 1 on a page whose
`is_allocated` flag is set. -/
def ranks_ok (s : State) : Prop :=
  ∀ i, (s.page_blocks i).rank ≤ MAXRANK ∧
    ((s.page_blocks i).is_allocated = true → 1 ≤ (s.page_blocks i).rank)

/-- The state after line 154 of `return_pages`: the `is_allocated` flag of
page `i` cleared. -/
def clear_allocated (s : State) (i : Nat) : State :=
  { s with page_blocks := setAt s.page_blocks i { (s.page_blocks i) with is_allocated := false } }

/-- The state `init_page(0, 6)` leaves: a block of rank 3 at page 0 and a
block of rank 2 at page 4. -/
def six_pages : State := ((init_page 0 6).getD (OK, init_reset 0 6)).2

/-- The blocks handed to `list_add` in the Free Areas `r`, `r - 1`, ..., 1, as
pairs (head page, rank): rank descending, as the outer loop of `init_page`
runs, and inside a rank in the order enqueued. -/
def carved_upto (s : State) : Nat → List (Nat × Nat)
  | 0 => []
  | r + 1 => (s.queued (r + 1)).map (fun p => (p, r + 1)) ++ carved_upto s r

theorem alloc_scan_spec (s : State) : ∀ (fuel current_rank : Nat), MAXRANK + 1 ≤ fuel + current_rank →
    ∃ k, alloc_scan s fuel current_rank = some k ∧ current_rank ≤ k ∧
      (∀ j, current_rank ≤ j → j < k → (s.free_areas j).count = 0) ∧
      (k ≤ MAXRANK → (s.free_areas k).count ≠ 0) ∧
      (current_rank ≤ MAXRANK + 1 → k ≤ MAXRANK + 1) := by
  intro fuel
  induction fuel with
  | zero =>
    intro cr h
    refine ⟨cr, ?_, le_refl _, ?_, ?_, fun h => h⟩
    · have : ¬ (cr ≤ MAXRANK ∧ (s.free_areas cr).count = 0) := by
        intro h1; omega
      simp [alloc_scan, this]
    · intro j h1 h2; omega
    · intro h1; omega
  | succ f ih =>
    intro cr h
    by_cases hc : cr ≤ MAXRANK ∧ (s.free_areas cr).count = 0
    · obtain ⟨k, hk, h1, h2, h3, h4⟩ := ih (cr + 1) (by omega)
      refine ⟨k, ?_, by omega, ?_, h3, fun _ => h4 (by omega)⟩
      · simp [alloc_scan, hc, hk]
      · intro j hj1 hj2
        by_cases hj : j = cr
        · subst hj; exact hc.2
        · exact h2 j (by omega) hj2
    · refine ⟨cr, ?_, le_refl _, ?_, ?_, fun h => h⟩
      · simp only [alloc_scan, if_neg hc]
      · intro j h1 h2; omega
      · intro h1 h2; exact hc ⟨h1, h2⟩

/-! ## Address translation -/

theorem wrap32_of_range (x : Int) (h0 : -2 ^ 31 ≤ x) (h1 : x < 2 ^ 31) : wrap32 x = x := by
  unfold wrap32
  omega

theorem wrap32_le (x : Int) (h0 : 0 ≤ x) : wrap32 x ≤ x := by
  unfold wrap32
  omega

theorem wrap32_lt (x : Int) : wrap32 x < 2 ^ 31 := by
  unfold wrap32
  omega

theorem wrap64_of_range (x : Int) (h0 : -2 ^ 63 ≤ x) (h1 : x < 2 ^ 63) : wrap64 x = x := by
  unfold wrap64
  omega

theorem ptr_add_of_nonneg (p off : Int) (h : 0 ≤ off) : ptr_add p off = p + off := by
  unfold ptr_add
  rw [if_neg (by omega)]

theorem get_page_addr_zero (s : State) : get_page_addr s 0 = s.memory_base := by
  simp [get_page_addr, wrap32, ptr_add]

theorem alloc_pages_eq (s : State) (rank : Int) :
    alloc_pages s rank =
      match alloc_pages_idx s rank with
      | none => none
      | some (alloc_outcome.invalid, s1) => some (ERR_PTR (-EINVAL), s1)
      | some (alloc_outcome.nospace, s1) => some (ERR_PTR (-ENOSPC), s1)
      | some (alloc_outcome.page page_idx, s1) => some (void_ptr.addr (get_page_addr s1 page_idx), s1) := rfl

/-! ## Error paths of `alloc_pages` -/

/-- C6: for every state and every rank below 1 or above MAXRANK,
`alloc_pages` returns `ERR_PTR(-EINVAL)` and the state it leaves is the state
it was called in. -/
theorem alloc_pages_invalid_rank (s : State) (rank : Int)
    (h : rank < 1 ∨ rank > (MAXRANK : Int)) :
    alloc_pages s rank = some (ERR_PTR (-EINVAL), s) := by
  simp [alloc_pages, alloc_pages_idx, h]

theorem alloc_pages_invalid_rank_witness :
    ((0 : Int) < 1 ∨ (0 : Int) > (MAXRANK : Int)) ∧
      alloc_pages (init_reset 0 4) 0 = some (ERR_PTR (-EINVAL), init_reset 0 4) :=
  ⟨by decide, alloc_pages_invalid_rank (init_reset 0 4) 0 (by decide)⟩

theorem alloc_pages_idx_nospace_iff (s : State) (rank : Int)
    (h1 : 1 ≤ rank) (h2 : rank ≤ (MAXRANK : Int)) :
    ((∃ s1, alloc_pages_idx s rank = some (alloc_outcome.nospace, s1)) ↔
      ∀ k : Nat, rank ≤ (k : Int) → k ≤ MAXRANK → (s.free_areas k).count = 0) ∧
    (∀ s1, alloc_pages_idx s rank = some (alloc_outcome.nospace, s1) → s1 = s) := by
  have hv : ¬ (rank < 1 ∨ rank > (MAXRANK : Int)) := by omega
  obtain ⟨k, hk, hk1, hk2, hk3, hk4⟩ := alloc_scan_spec s (MAXRANK + 1) rank.toNat (by omega)
  have hr : ((rank.toNat : Nat) : Int) = rank := Int.toNat_of_nonneg (by omega)
  by_cases hgt : k > MAXRANK
  · have hres : alloc_pages_idx s rank = some (alloc_outcome.nospace, s) := by
      simp [alloc_pages_idx, hv, hk, hgt]
    refine ⟨⟨fun _ j hj1 hj2 => hk2 j (by omega) (by omega), fun _ => ⟨s, hres⟩⟩, ?_⟩
    intro s1 h
    rw [hres] at h
    simp at h
    exact h.symm
  · have hne : ∀ s1, alloc_pages_idx s rank ≠ some (alloc_outcome.nospace, s1) := by
      intro s1
      simp only [alloc_pages_idx, if_neg hv, hk, if_neg hgt]
      cases list_remove s k (s.free_areas k).head with
      | none => simp
      | some s2 =>
        simp only
        cases alloc_split MAXRANK s2 k rank.toNat (s.free_areas k).head with
        | none => simp
        | some s3 => simp
    refine ⟨⟨fun ⟨s1, h⟩ => absurd h (hne s1), fun h => ?_⟩, fun s1 h => absurd h (hne s1)⟩
    exact absurd (h k (by omega) (by omega)) (hk3 (by omega))

theorem alloc_pages_nospace_iff_idx (s s1 : State) (rank : Int) :
    alloc_pages s rank = some (ERR_PTR (-ENOSPC), s1) ↔
      alloc_pages_idx s rank = some (alloc_outcome.nospace, s1) := by
  rw [alloc_pages_eq]
  cases h : alloc_pages_idx s rank with
  | none => simp
  | some r =>
    obtain ⟨o, s2⟩ := r
    cases o with
    | invalid => simp [ERR_PTR, EINVAL, ENOSPC]
    | nospace => simp
    | page i => simp [ERR_PTR]

/-- C9: for every state and every rank in 1..MAXRANK, `alloc_pages` returns
`ERR_PTR(-ENOSPC)` exactly when the count of every rank from the requested
one up to MAXRANK is zero, and then the state is unchanged; after
`init_page(base, 3)` the call `alloc_pages(3)` is such a call. -/
theorem alloc_pages_nospace (s : State) (rank : Int)
    (h1 : 1 ≤ rank) (h2 : rank ≤ (MAXRANK : Int)) :
    ((∃ s1, alloc_pages s rank = some (ERR_PTR (-ENOSPC), s1)) ↔
      ∀ k : Nat, rank ≤ (k : Int) → k ≤ MAXRANK → (s.free_areas k).count = 0) ∧
    (∀ s1, alloc_pages s rank = some (ERR_PTR (-ENOSPC), s1) → s1 = s) ∧
    (∀ base : Int, ∃ s3, init_page base 3 = some (OK, s3) ∧
      alloc_pages s3 3 = some (ERR_PTR (-ENOSPC), s3)) := by
  obtain ⟨hiff, hsame⟩ := alloc_pages_idx_nospace_iff s rank h1 h2
  refine ⟨?_, ?_, ?_⟩
  · rw [← hiff]
    constructor
    · rintro ⟨s1, h⟩
      exact ⟨s1, (alloc_pages_nospace_iff_idx s s1 rank).1 h⟩
    · rintro ⟨s1, h⟩
      exact ⟨s1, (alloc_pages_nospace_iff_idx s s1 rank).2 h⟩
  · intro s1 h
    exact hsame s1 ((alloc_pages_nospace_iff_idx s s1 rank).1 h)
  · intro base
    exact ⟨_, rfl, rfl⟩

theorem alloc_pages_nospace_witness :
    ((1 : Int) ≤ 3 ∧ (3 : Int) ≤ (MAXRANK : Int)) ∧
      ∀ s1, alloc_pages (init_reset 0 3) 3 = some (ERR_PTR (-ENOSPC), s1) → s1 = init_reset 0 3 :=
  ⟨by decide, (alloc_pages_nospace (init_reset 0 3) 3 (by decide) (by decide)).2.1⟩

/-! ## Independence of the base address -/

theorem list_add_rebase (s : State) (b : Int) (area i : Nat) :
    list_add (rebase s b) area i = (list_add s area i).map (fun x => rebase x b) := by
  unfold list_add
  simp only [rebase]
  split_ifs <;> rfl

theorem list_remove_rebase (s : State) (b : Int) (area i : Nat) :
    list_remove (rebase s b) area i = (list_remove s area i).map (fun x => rebase x b) := by
  unfold list_remove
  simp only [rebase]
  split_ifs <;> rfl

theorem init_carve_rebase (b : Int) : ∀ (fuel : Nat) (s : State) (rank cur : Nat),
    init_carve fuel (rebase s b) rank cur =
      (init_carve fuel s rank cur).map (fun x => (rebase x.1 b, x.2)) := by
  intro fuel
  induction fuel with
  | zero =>
    intro s rank cur
    simp only [init_carve, rebase]
    split_ifs <;> rfl
  | succ f ih =>
    intro s rank cur
    simp only [init_carve]
    by_cases h : cur + 1 <<< (rank - 1) ≤ s.total_pages
    · have h2 : cur + 1 <<< (rank - 1) ≤ (rebase s b).total_pages := h
      rw [if_pos h, if_pos h2]
      have e := list_add_rebase { s with page_blocks := setAt s.page_blocks cur { (s.page_blocks cur) with rank := rank } } b rank cur
      simp only [rebase] at e ⊢
      rw [e]
      cases list_add { s with page_blocks := setAt s.page_blocks cur { (s.page_blocks cur) with rank := rank } } rank cur with
      | none => rfl
      | some s2 => exact ih s2 rank _
    · have h2 : ¬ cur + 1 <<< (rank - 1) ≤ (rebase s b).total_pages := h
      rw [if_neg h, if_neg h2]
      rfl

theorem init_ranks_rebase (b : Int) : ∀ (n : Nat) (s : State) (cur : Nat),
    init_ranks n (rebase s b) cur =
      (init_ranks n s cur).map (fun x => (rebase x.1 b, x.2)) := by
  intro n
  induction n with
  | zero => intro s cur; rfl
  | succ r ih =>
    intro s cur
    simp only [init_ranks]
    have e := init_carve_rebase b s.total_pages s (r + 1) cur
    simp only [rebase] at e ⊢
    rw [e]
    cases init_carve s.total_pages s (r + 1) cur with
    | none => rfl
    | some x => exact ih x.1 x.2

theorem init_page_rebase (b : Int) (n : Nat) :
    init_page b n = (init_page 0 n).map (fun x => (x.1, rebase x.2 b)) := by
  unfold init_page
  have e := init_ranks_rebase b MAXRANK (init_reset 0 n) 0
  have e2 : rebase (init_reset 0 n) b = init_reset b n := rfl
  rw [e2] at e
  rw [e]
  cases init_ranks MAXRANK (init_reset 0 n) 0 with
  | none => rfl
  | some x => rfl

theorem alloc_scan_rebase (b : Int) (s : State) : ∀ (fuel cr : Nat),
    alloc_scan (rebase s b) fuel cr = alloc_scan s fuel cr := by
  intro fuel
  induction fuel with
  | zero => intro cr; rfl
  | succ f ih =>
    intro cr
    simp only [alloc_scan]
    rw [ih]
    rfl

theorem alloc_split_rebase (b : Int) : ∀ (fuel : Nat) (s : State) (cr rank p : Nat),
    alloc_split fuel (rebase s b) cr rank p =
      (alloc_split fuel s cr rank p).map (fun x => rebase x b) := by
  intro fuel
  induction fuel with
  | zero =>
    intro s cr rank p
    simp only [alloc_split]
    split_ifs <;> rfl
  | succ f ih =>
    intro s cr rank p
    simp only [alloc_split]
    by_cases h : cr > rank
    · rw [if_pos h, if_pos h]
      by_cases h1 : p + 1 <<< (cr - 1 - 1) < s.total_pages
      · have h2 : p + 1 <<< (cr - 1 - 1) < (rebase s b).total_pages := h1
        rw [if_pos h1, if_pos h2]
        have e := list_add_rebase { s with page_blocks := setAt s.page_blocks (p + 1 <<< (cr - 1 - 1)) { (s.page_blocks (p + 1 <<< (cr - 1 - 1))) with rank := cr - 1 } } b (cr - 1) (p + 1 <<< (cr - 1 - 1))
        simp only [rebase] at e ⊢
        rw [e]
        cases list_add { s with page_blocks := setAt s.page_blocks (p + 1 <<< (cr - 1 - 1)) { (s.page_blocks (p + 1 <<< (cr - 1 - 1))) with rank := cr - 1 } } (cr - 1) (p + 1 <<< (cr - 1 - 1)) with
        | none => rfl
        | some s2 => exact ih s2 _ _ _
      · have h2 : ¬ p + 1 <<< (cr - 1 - 1) < (rebase s b).total_pages := h1
        rw [if_neg h1, if_neg h2]
        rfl
    · rw [if_neg h, if_neg h]
      rfl

theorem alloc_pages_idx_rebase (b : Int) (s : State) (rank : Int) :
    alloc_pages_idx (rebase s b) rank =
      (alloc_pages_idx s rank).map (fun x => (x.1, rebase x.2 b)) := by
  unfold alloc_pages_idx
  by_cases h : rank < 1 ∨ rank > (MAXRANK : Int)
  · rw [if_pos h, if_pos h]; rfl
  · rw [if_neg h, if_neg h, alloc_scan_rebase]
    cases alloc_scan s (MAXRANK + 1) rank.toNat with
    | none => rfl
    | some k =>
      simp only
      by_cases hk : k > MAXRANK
      · rw [if_pos hk, if_pos hk]; rfl
      · rw [if_neg hk, if_neg hk]
        have e : ((rebase s b).free_areas k).head = (s.free_areas k).head := rfl
        rw [e, list_remove_rebase]
        cases list_remove s k (s.free_areas k).head with
        | none => rfl
        | some s1 =>
          simp only [Option.map_some']
          rw [alloc_split_rebase]
          cases alloc_split MAXRANK s1 k rank.toNat (s.free_areas k).head with
          | none => rfl
          | some s2 => rfl

theorem return_merge_rebase (b : Int) : ∀ (fuel : Nat) (s : State) (p rank : Nat),
    return_merge fuel (rebase s b) p rank =
      (return_merge fuel s p rank).map (fun x => (rebase x.1 b, x.2)) := by
  intro fuel
  induction fuel with
  | zero =>
    intro s p rank
    simp only [return_merge]
    split_ifs <;> rfl
  | succ f ih =>
    intro s p rank
    simp only [return_merge]
    by_cases h : rank < MAXRANK
    · rw [if_pos h, if_pos h]
      by_cases h0 : rank = 0
      · rw [if_pos h0, if_pos h0]; rfl
      · rw [if_neg h0, if_neg h0]
        by_cases h1 : ¬ get_buddy_index p rank < s.total_pages
        · have h2 : ¬ get_buddy_index p rank < (rebase s b).total_pages := h1
          rw [if_pos h1, if_pos h2]; rfl
        · have h2 : ¬ ¬ get_buddy_index p rank < (rebase s b).total_pages := h1
          rw [if_neg h1, if_neg h2]
          by_cases h3 : (s.page_blocks (get_buddy_index p rank)).is_allocated = true ∨ (s.page_blocks (get_buddy_index p rank)).rank ≠ rank
          · have h4 : ((rebase s b).page_blocks (get_buddy_index p rank)).is_allocated = true ∨ ((rebase s b).page_blocks (get_buddy_index p rank)).rank ≠ rank := h3
            rw [if_pos h3, if_pos h4]; rfl
          · have h4 : ¬ (((rebase s b).page_blocks (get_buddy_index p rank)).is_allocated = true ∨ ((rebase s b).page_blocks (get_buddy_index p rank)).rank ≠ rank) := h3
            rw [if_neg h3, if_neg h4, list_remove_rebase]
            cases list_remove s rank (get_buddy_index p rank) with
            | none => rfl
            | some s1 =>
              exact ih { s1 with page_blocks := setAt s1.page_blocks (if p > get_buddy_index p rank then get_buddy_index p rank else p) { (s1.page_blocks (if p > get_buddy_index p rank then get_buddy_index p rank else p)) with rank := rank + 1 } } _ _
    · rw [if_neg h, if_neg h]; rfl

theorem return_pages_idx_rebase (b : Int) (s : State) (i : Int) :
    return_pages_idx (rebase s b) i =
      (return_pages_idx s i).map (fun x => (x.1, rebase x.2 b)) := by
  unfold return_pages_idx
  by_cases h : i < 0
  · rw [if_pos h, if_pos h]; rfl
  · rw [if_neg h, if_neg h]
    by_cases h1 : ¬ i.toNat < s.total_pages
    · have h2 : ¬ i.toNat < (rebase s b).total_pages := h1
      rw [if_pos h1, if_pos h2]; rfl
    · have h2 : ¬ ¬ i.toNat < (rebase s b).total_pages := h1
      rw [if_neg h1, if_neg h2]
      by_cases h3 : (s.page_blocks i.toNat).is_allocated = false
      · have h4 : ((rebase s b).page_blocks i.toNat).is_allocated = false := h3
        rw [if_pos h3, if_pos h4]; rfl
      · have h4 : ¬ ((rebase s b).page_blocks i.toNat).is_allocated = false := h3
        rw [if_neg h3, if_neg h4]
        have e := return_merge_rebase b MAXRANK { s with page_blocks := setAt s.page_blocks i.toNat { (s.page_blocks i.toNat) with is_allocated := false } } i.toNat
        simp only [rebase] at e ⊢
        rw [e]
        cases return_merge MAXRANK { s with page_blocks := setAt s.page_blocks i.toNat { (s.page_blocks i.toNat) with is_allocated := false } } i.toNat (setAt s.page_blocks i.toNat { (s.page_blocks i.toNat) with is_allocated := false } i.toNat).rank with
        | none => rfl
        | some x =>
          obtain ⟨s2, p2, r2⟩ := x
          simp only [Option.map_some']
          have e2 := list_add_rebase s2 b r2 p2
          simp only [rebase] at e2
          rw [e2]
          cases list_add s2 r2 p2 with
          | none => rfl
          | some s3 => rfl

theorem query_page_counts_rebase (s : State) (b : Int) (rank : Int) :
    query_page_counts (rebase s b) rank = query_page_counts s rank := rfl

theorem counts_rebase (s : State) (b : Int) : counts (rebase s b) = counts s := rfl

theorem eq_some_of_fst {α β : Type} (x : Option (α × β)) (a : α) (d : α × β)
    (h : x.map Prod.fst = some a) : x = some (a, (x.getD d).2) := by
  cases x with
  | none => simp at h
  | some v =>
    obtain ⟨v1, v2⟩ := v
    simp at h
    simp [h]

/-! ## The round trip on four pages -/

/-- C8: after `init_page(base, 4)` the count of rank 3 is 1; `alloc_pages(1)`
returns the address of page 0, which is `base`, and leaves the counts of
ranks 1, 2, 3 at 1, 1, 0; `return_pages` on that address returns `OK` and
leaves them at 0, 0, 1, and the counts of all ranks as they were after
`init_page`. -/
theorem round_trip_four_pages (base : Int) :
    ∃ s0 s1 s2, init_page base 4 = some (OK, s0) ∧ query_page_counts s0 3 = 1 ∧
      alloc_pages s0 1 = some (void_ptr.addr base, s1) ∧ get_page_addr s0 0 = base ∧
      query_page_counts s1 1 = 1 ∧ query_page_counts s1 2 = 1 ∧ query_page_counts s1 3 = 0 ∧
      return_pages s1 base = some (OK, s2) ∧
      query_page_counts s2 3 = 1 ∧ query_page_counts s2 1 = 0 ∧ query_page_counts s2 2 = 0 ∧
      counts s2 = counts s0 := by
  let t0 : State := ((init_page 0 4).getD (OK, init_reset 0 4)).2
  let t1 : State := ((alloc_pages_idx t0 1).getD (alloc_outcome.invalid, t0)).2
  let t2 : State := ((return_pages_idx t1 0).getD (OK, t1)).2
  have e0 : init_page 0 4 = some (OK, t0) := eq_some_of_fst _ _ _ (by decide!)
  have e1 : alloc_pages_idx t0 1 = some (alloc_outcome.page 0, t1) := eq_some_of_fst _ _ _ (by decide!)
  have e2 : return_pages_idx t1 0 = some (OK, t2) := eq_some_of_fst _ _ _ (by decide!)
  have n1 : t1.total_pages = 4 := by decide!
  have hi : get_page_index (rebase t1 base) base = 0 := by
    have hb : (rebase t1 base).memory_base = base := rfl
    have ht : (rebase t1 base).total_pages = 4 := n1
    simp [get_page_index, hb, ht, wrap32, wrap64, ptr_add, PAGE_SIZE]
  refine ⟨rebase t0 base, rebase t1 base, rebase t2 base, ?_, ?_, ?_, get_page_addr_zero _, ?_, ?_, ?_, ?_, ?_, ?_, ?_, ?_⟩
  · rw [init_page_rebase, e0]; rfl
  · rw [query_page_counts_rebase]
    decide!
  · rw [alloc_pages_eq, alloc_pages_idx_rebase, e1]
    exact congrArg (fun a => some (void_ptr.addr a, rebase t1 base)) (get_page_addr_zero _)
  · rw [query_page_counts_rebase]
    decide!
  · rw [query_page_counts_rebase]
    decide!
  · rw [query_page_counts_rebase]
    decide!
  · unfold return_pages
    rw [hi, return_pages_idx_rebase, e2]
    rfl
  · rw [query_page_counts_rebase]
    decide!
  · rw [query_page_counts_rebase]
    decide!
  · rw [query_page_counts_rebase]
    decide!
  · rw [counts_rebase, counts_rebase]
    decide!

/-! ## Page 0 and the null link

`list_add` stores page 0 as the link value 0, which is `NULL`.  The sessions
below are evaluated on the code as it stands. -/

/-- C1: after `init_page(0, 3)` (pages at addresses 0, 4096, 8192), three
`alloc_pages(1)` calls, and `return_pages` of pages 0, 2, 1 in this order, the
next two `alloc_pages(1)` calls both return address 0: address 0 is live
after the first of them (returned and not released), and the second one
hands out the same rank-1 block at page 0 again. -/
theorem alloc_pages_returns_live_block :
    (session 0 3 [Call.alloc 1, Call.alloc 1, Call.alloc 1, Call.free 0, Call.free 8192,
        Call.free 4096, Call.alloc 1, Call.alloc 1]).map Prod.fst =
      some [Ret.ptr (void_ptr.addr 8192), Ret.ptr (void_ptr.addr 0), Ret.ptr (void_ptr.addr 4096),
        Ret.code OK, Ret.code OK, Ret.code OK,
        Ret.ptr (void_ptr.addr 0), Ret.ptr (void_ptr.addr 0)] ∧
    live_after 0 [Call.alloc 1, Call.alloc 1, Call.alloc 1, Call.free 0, Call.free 8192,
        Call.free 4096, Call.alloc 1]
      [Ret.ptr (void_ptr.addr 8192), Ret.ptr (void_ptr.addr 0), Ret.ptr (void_ptr.addr 4096),
        Ret.code OK, Ret.code OK, Ret.code OK, Ret.ptr (void_ptr.addr 0)] = true :=
  ⟨by decide, by decide⟩

/-- C3: after the same session on 3 pages the free lists account for 1 page
and the allocated blocks for 1 page, 2 pages in all and not 3. -/
theorem page_conservation_fails :
    (session 0 3 [Call.alloc 1, Call.alloc 1, Call.alloc 1, Call.free 0, Call.free 8192,
        Call.free 4096, Call.alloc 1, Call.alloc 1]).map
        (fun x => (free_page_total x.2, allocated_page_total x.2, x.2.total_pages)) =
      some (1, 1, 3) := by
  decide

/-- C4: after `init_page(0, 4)`, four `alloc_pages(1)` calls, `return_pages`
of pages 0, 2, 1, one `alloc_pages(1)` and `return_pages` of page 3, the
blocks enqueued in Free Area 2 and not dequeued since are those at pages 0
and 2, and each is the buddy of the other at rank 2. -/
theorem buddies_both_queued :
    (session 0 4 [Call.alloc 1, Call.alloc 1, Call.alloc 1, Call.alloc 1, Call.free 0,
        Call.free 8192, Call.free 4096, Call.alloc 1, Call.free 12288]).map
        (fun x => (x.2.queued 2, get_buddy_index 0 2, get_buddy_index 2 2,
          query_page_counts x.2 2)) =
      some ([0, 2], 2, 0, 2) := by
  decide

/-- C10: after `init_page(0, 3)`, three `alloc_pages(1)` calls and
`return_pages` of pages 0, 2, 1, Free Area 1 has count 1 and holds the block
at page 2 alone, while page 0 is the head of a free block of Free Area 2;
`alloc_pages(1)` then returns address 0, not the block of Free Area 1, and
leaves page 2 in Free Area 1 and page 0 in Free Area 2. -/
theorem exact_fit_returns_foreign_page :
    (session 0 3 [Call.alloc 1, Call.alloc 1, Call.alloc 1, Call.free 0, Call.free 8192,
        Call.free 4096]).bind
        (fun x => (alloc_pages x.2 1).map (fun y =>
          (query_page_counts x.2 1, [x.2.queued 1, x.2.queued 2], y.1,
            [y.2.queued 1, y.2.queued 2]))) =
      some (1, [[2], [0]], void_ptr.addr 0, [[2], [0]]) := by
  decide

/-! ## What `list_add` and `list_remove` store -/

theorem setAt_apply {α : Type} (f : Nat → α) (i : Nat) (v : α) (j : Nat) :
    setAt f i v j = if j = i then v else f j := rfl

theorem list_add_eq_some {s s1 : State} {area i : Nat} (h : list_add s area i = some s1) :
    (area ≤ MAXRANK ∧ i < s.total_pages ∧
      ((s.free_areas area).tail ≠ 0 → (s.free_areas area).tail < s.total_pages)) ∧
    s1 = list_add_state s area i := by
  unfold list_add at h
  split_ifs at h with h1
  exact ⟨h1, (Option.some.inj h).symm⟩

theorem list_add_of_ok {s : State} {area i : Nat} (h1 : area ≤ MAXRANK) (h2 : i < s.total_pages)
    (h3 : (s.free_areas area).tail ≠ 0 → (s.free_areas area).tail < s.total_pages) :
    list_add s area i = some (list_add_state s area i) := by
  unfold list_add
  rw [if_pos ⟨h1, h2, h3⟩]

theorem list_remove_eq_some {s s1 : State} {area i : Nat} (h : list_remove s area i = some s1) :
    (area ≤ MAXRANK ∧ i < s.total_pages ∧
      ((s.page_blocks i).prev ≠ 0 → (s.page_blocks i).prev < s.total_pages) ∧
      ((s.page_blocks i).next ≠ 0 → (s.page_blocks i).next < s.total_pages)) ∧
    s1 = list_remove_state s area i := by
  unfold list_remove at h
  split_ifs at h with h1
  exact ⟨h1, (Option.some.inj h).symm⟩

theorem list_remove_of_ok {s : State} {area i : Nat} (h1 : area ≤ MAXRANK) (h2 : i < s.total_pages)
    (h3 : (s.page_blocks i).prev ≠ 0 → (s.page_blocks i).prev < s.total_pages)
    (h4 : (s.page_blocks i).next ≠ 0 → (s.page_blocks i).next < s.total_pages) :
    list_remove s area i = some (list_remove_state s area i) := by
  unfold list_remove
  rw [if_pos ⟨h1, h2, h3, h4⟩]

theorem list_add_state_next (s : State) (area i j : Nat) :
    ((list_add_state s area i).page_blocks j).next =
      if (s.free_areas area).tail ≠ 0 ∧ j = (s.free_areas area).tail then i
      else if j = i then 0 else (s.page_blocks j).next := by
  simp only [list_add_state, setAt_apply]
  split_ifs <;> simp only [setAt_apply] <;> (try split_ifs) <;> simp_all

theorem list_add_state_prev (s : State) (area i j : Nat) :
    ((list_add_state s area i).page_blocks j).prev =
      if j = i then (s.free_areas area).tail else (s.page_blocks j).prev := by
  simp only [list_add_state, setAt_apply]
  split_ifs <;> simp only [setAt_apply] <;> (try split_ifs) <;> simp_all

theorem list_add_state_rank (s : State) (area i j : Nat) :
    ((list_add_state s area i).page_blocks j).rank = (s.page_blocks j).rank := by
  simp only [list_add_state, setAt_apply]
  split_ifs <;> simp only [setAt_apply] <;> (try split_ifs) <;> simp_all

theorem list_add_state_is_allocated (s : State) (area i j : Nat) :
    ((list_add_state s area i).page_blocks j).is_allocated = (s.page_blocks j).is_allocated := by
  simp only [list_add_state, setAt_apply]
  split_ifs <;> simp only [setAt_apply] <;> (try split_ifs) <;> simp_all

theorem list_add_state_area (s : State) (area i k : Nat) :
    (list_add_state s area i).free_areas k =
      if k = area then
        { head := if (s.free_areas area).head = 0 then i else (s.free_areas area).head
          tail := i
          count := (s.free_areas area).count + 1 }
      else s.free_areas k := rfl

theorem list_add_state_total (s : State) (area i : Nat) :
    (list_add_state s area i).total_pages = s.total_pages := rfl

theorem list_add_state_base (s : State) (area i : Nat) :
    (list_add_state s area i).memory_base = s.memory_base := rfl

theorem list_remove_state_next (s : State) (area i j : Nat) :
    ((list_remove_state s area i).page_blocks j).next =
      if j = i then 0
      else if (s.page_blocks i).prev ≠ 0 ∧ j = (s.page_blocks i).prev then (s.page_blocks i).next
      else (s.page_blocks j).next := by
  simp only [list_remove_state]
  generalize (s.page_blocks i).prev = P
  generalize (s.page_blocks i).next = Nx
  generalize s.page_blocks = pb
  split_ifs <;> simp only [setAt_apply] <;> (try split_ifs) <;> simp_all

theorem list_remove_state_prev (s : State) (area i j : Nat) :
    ((list_remove_state s area i).page_blocks j).prev =
      if j = i then 0
      else if (s.page_blocks i).next ≠ 0 ∧ j = (s.page_blocks i).next then (s.page_blocks i).prev
      else (s.page_blocks j).prev := by
  simp only [list_remove_state]
  generalize (s.page_blocks i).prev = P
  generalize (s.page_blocks i).next = Nx
  generalize s.page_blocks = pb
  split_ifs <;> simp only [setAt_apply] <;> (try split_ifs) <;> simp_all

theorem list_remove_state_rank (s : State) (area i j : Nat) :
    ((list_remove_state s area i).page_blocks j).rank =
      (s.page_blocks j).rank := by
  simp only [list_remove_state]
  generalize (s.page_blocks i).prev = P
  generalize (s.page_blocks i).next = Nx
  generalize s.page_blocks = pb
  split_ifs <;> simp only [setAt_apply] <;> (try split_ifs) <;> simp_all

theorem list_remove_state_is_allocated (s : State) (area i j : Nat) :
    ((list_remove_state s area i).page_blocks j).is_allocated =
      (s.page_blocks j).is_allocated := by
  simp only [list_remove_state]
  generalize (s.page_blocks i).prev = P
  generalize (s.page_blocks i).next = Nx
  generalize s.page_blocks = pb
  split_ifs <;> simp only [setAt_apply] <;> (try split_ifs) <;> simp_all

theorem list_remove_state_area (s : State) (area i k : Nat) :
    (list_remove_state s area i).free_areas k =
      if k = area then
        { head := if (s.page_blocks i).prev ≠ 0 then (s.free_areas area).head else (s.page_blocks i).next
          tail := if (s.page_blocks i).next ≠ 0 then (s.free_areas area).tail else (s.page_blocks i).prev
          count := (s.free_areas area).count - 1 }
      else s.free_areas k := rfl

theorem list_remove_state_total (s : State) (area i : Nat) :
    (list_remove_state s area i).total_pages = s.total_pages := rfl

theorem list_remove_state_base (s : State) (area i : Nat) :
    (list_remove_state s area i).memory_base = s.memory_base := rfl

/-! ## The `is_allocated` flags -/

theorem same_alloc_refl (s : State) : same_alloc s s := ⟨rfl, rfl, fun _ => rfl⟩

theorem same_alloc_trans {s s1 s2 : State} (h1 : same_alloc s s1) (h2 : same_alloc s1 s2) :
    same_alloc s s2 :=
  ⟨h2.1.trans h1.1, h2.2.1.trans h1.2.1, fun i => (h2.2.2 i).trans (h1.2.2 i)⟩

theorem same_alloc_set_rank (s : State) (i r : Nat) :
    same_alloc s { s with page_blocks := setAt s.page_blocks i { (s.page_blocks i) with rank := r } } := by
  refine ⟨rfl, rfl, fun j => ?_⟩
  simp only [setAt_apply]
  split_ifs with h
  · subst h; rfl
  · rfl

theorem list_add_same_alloc {s s1 : State} {area i : Nat} (h : list_add s area i = some s1) :
    same_alloc s s1 := by
  rw [(list_add_eq_some h).2]
  exact ⟨rfl, rfl, fun j => list_add_state_is_allocated s area i j⟩

theorem list_remove_same_alloc {s s1 : State} {area i : Nat} (h : list_remove s area i = some s1) :
    same_alloc s s1 := by
  rw [(list_remove_eq_some h).2]
  exact ⟨rfl, rfl, fun j => list_remove_state_is_allocated s area i j⟩

theorem alloc_split_same_alloc : ∀ (fuel : Nat) (s s1 : State) (cr rank p : Nat),
    alloc_split fuel s cr rank p = some s1 → same_alloc s s1 := by
  intro fuel
  induction fuel with
  | zero =>
    intro s s1 cr rank p h
    simp only [alloc_split] at h
    split_ifs at h
    rw [← Option.some.inj h]
    exact same_alloc_refl s
  | succ f ih =>
    intro s s1 cr rank p h
    simp only [alloc_split] at h
    split_ifs at h with h1 h2
    · cases hl : list_add { s with page_blocks := setAt s.page_blocks (p + 1 <<< (cr - 1 - 1)) { (s.page_blocks (p + 1 <<< (cr - 1 - 1))) with rank := cr - 1 } } (cr - 1) (p + 1 <<< (cr - 1 - 1)) with
      | none => rw [hl] at h; simp at h
      | some s2 =>
        rw [hl] at h
        exact same_alloc_trans (same_alloc_trans (same_alloc_set_rank s _ _) (list_add_same_alloc hl))
          (ih _ _ _ _ _ h)
    · rw [← Option.some.inj h]
      exact same_alloc_refl s

theorem return_merge_same_alloc : ∀ (fuel : Nat) (s s1 : State) (p rank p1 rank1 : Nat),
    return_merge fuel s p rank = some (s1, p1, rank1) → same_alloc s s1 := by
  intro fuel
  induction fuel with
  | zero =>
    intro s s1 p rank p1 rank1 h
    simp only [return_merge] at h
    split_ifs at h
    rw [← (Prod.mk.inj (Option.some.inj h)).1]
    exact same_alloc_refl s
  | succ f ih =>
    intro s s1 p rank p1 rank1 h
    simp only [return_merge] at h
    by_cases h1 : rank < MAXRANK
    · rw [if_pos h1] at h
      by_cases h2 : rank = 0
      · rw [if_pos h2] at h; simp at h
      · rw [if_neg h2] at h
        by_cases h3 : ¬ get_buddy_index p rank < s.total_pages
        · rw [if_pos h3] at h
          rw [← (Prod.mk.inj (Option.some.inj h)).1]
          exact same_alloc_refl s
        · rw [if_neg h3] at h
          by_cases h4 : (s.page_blocks (get_buddy_index p rank)).is_allocated = true ∨ (s.page_blocks (get_buddy_index p rank)).rank ≠ rank
          · rw [if_pos h4] at h
            rw [← (Prod.mk.inj (Option.some.inj h)).1]
            exact same_alloc_refl s
          · rw [if_neg h4] at h
            cases hl : list_remove s rank (get_buddy_index p rank) with
            | none => rw [hl] at h; simp at h
            | some s2 =>
              rw [hl] at h
              exact same_alloc_trans (same_alloc_trans (list_remove_same_alloc hl) (same_alloc_set_rank s2 _ _))
                (ih _ _ _ _ _ _ h)
    · rw [if_neg h1] at h
      rw [← (Prod.mk.inj (Option.some.inj h)).1]
      exact same_alloc_refl s

theorem init_carve_same_alloc : ∀ (fuel : Nat) (s s1 : State) (rank cur cur1 : Nat),
    init_carve fuel s rank cur = some (s1, cur1) → same_alloc s s1 := by
  intro fuel
  induction fuel with
  | zero =>
    intro s s1 rank cur cur1 h
    simp only [init_carve] at h
    split_ifs at h
    rw [← (Prod.mk.inj (Option.some.inj h)).1]
    exact same_alloc_refl s
  | succ f ih =>
    intro s s1 rank cur cur1 h
    simp only [init_carve] at h
    split_ifs at h with h1
    · cases hl : list_add { s with page_blocks := setAt s.page_blocks cur { (s.page_blocks cur) with rank := rank } } rank cur with
      | none => rw [hl] at h; simp at h
      | some s2 =>
        rw [hl] at h
        exact same_alloc_trans (same_alloc_trans (same_alloc_set_rank s _ _) (list_add_same_alloc hl))
          (ih _ _ _ _ _ h)
    · rw [← (Prod.mk.inj (Option.some.inj h)).1]
      exact same_alloc_refl s

theorem init_ranks_same_alloc : ∀ (n : Nat) (s s1 : State) (cur cur1 : Nat),
    init_ranks n s cur = some (s1, cur1) → same_alloc s s1 := by
  intro n
  induction n with
  | zero =>
    intro s s1 cur cur1 h
    simp only [init_ranks] at h
    rw [← (Prod.mk.inj (Option.some.inj h)).1]
    exact same_alloc_refl s
  | succ r ih =>
    intro s s1 cur cur1 h
    simp only [init_ranks] at h
    cases hc : init_carve s.total_pages s (r + 1) cur with
    | none => rw [hc] at h; simp at h
    | some x =>
      obtain ⟨s2, cur2⟩ := x
      rw [hc] at h
      exact same_alloc_trans (init_carve_same_alloc _ _ _ _ _ _ hc) (ih _ _ _ _ h)

theorem init_page_flags {base : Int} {n : Nat} {c : Int} {s : State}
    (h : init_page base n = some (c, s)) :
    c = OK ∧ s.memory_base = base ∧ s.total_pages = n ∧
      ∀ i, (s.page_blocks i).is_allocated = false := by
  unfold init_page at h
  cases hr : init_ranks MAXRANK (init_reset base n) 0 with
  | none => rw [hr] at h; simp at h
  | some x =>
    obtain ⟨s2, cur2⟩ := x
    rw [hr] at h
    simp only [Option.some.injEq, Prod.mk.injEq] at h
    obtain ⟨hb, ht, hf⟩ := init_ranks_same_alloc _ _ _ _ _ hr
    rw [← h.2]
    exact ⟨h.1.symm, hb, ht, fun i => hf i⟩

theorem alloc_pages_idx_flags {s s1 : State} {rank : Int} {o : alloc_outcome}
    (h : alloc_pages_idx s rank = some (o, s1)) :
    s1.memory_base = s.memory_base ∧ s1.total_pages = s.total_pages ∧
      match o with
      | alloc_outcome.page p =>
        ∀ i, (s1.page_blocks i).is_allocated = if i = p then true else (s.page_blocks i).is_allocated
      | _ => s1 = s := by
  unfold alloc_pages_idx at h
  by_cases hv : rank < 1 ∨ rank > (MAXRANK : Int)
  · rw [if_pos hv] at h
    simp only [Option.some.injEq, Prod.mk.injEq] at h
    obtain ⟨h1, h2⟩ := h
    subst h1 h2
    exact ⟨rfl, rfl, rfl⟩
  · rw [if_neg hv] at h
    cases hs : alloc_scan s (MAXRANK + 1) rank.toNat with
    | none => rw [hs] at h; simp at h
    | some k =>
      rw [hs] at h
      simp only at h
      by_cases hk : k > MAXRANK
      · rw [if_pos hk] at h
        simp only [Option.some.injEq, Prod.mk.injEq] at h
        obtain ⟨h1, h2⟩ := h
        subst h1 h2
        exact ⟨rfl, rfl, rfl⟩
      · rw [if_neg hk] at h
        cases hr : list_remove s k (s.free_areas k).head with
        | none => rw [hr] at h; simp at h
        | some s2 =>
          rw [hr] at h
          simp only at h
          cases hp : alloc_split MAXRANK s2 k rank.toNat (s.free_areas k).head with
          | none => rw [hp] at h; simp at h
          | some s3 =>
            rw [hp] at h
            simp only [Option.some.injEq, Prod.mk.injEq] at h
            obtain ⟨h1, h2⟩ := h
            subst h1 h2
            obtain ⟨hb, ht, hf⟩ := same_alloc_trans (list_remove_same_alloc hr)
              (alloc_split_same_alloc _ _ _ _ _ _ hp)
            refine ⟨hb, ht, fun i => ?_⟩
            simp only [setAt_apply]
            split_ifs with hi
            · rfl
            · exact hf i

theorem return_pages_idx_flags {s s1 : State} {idx c : Int}
    (h : return_pages_idx s idx = some (c, s1)) :
    (c = -EINVAL ∧ s1 = s) ∨
      (c = OK ∧ 0 ≤ idx ∧ idx.toNat < s.total_pages ∧ s1.memory_base = s.memory_base ∧
        s1.total_pages = s.total_pages ∧
        ∀ i, (s1.page_blocks i).is_allocated =
          if i = idx.toNat then false else (s.page_blocks i).is_allocated) := by
  unfold return_pages_idx at h
  by_cases h0 : idx < 0
  · rw [if_pos h0] at h
    simp only [Option.some.injEq, Prod.mk.injEq] at h
    exact Or.inl ⟨h.1.symm, h.2.symm⟩
  · rw [if_neg h0] at h
    by_cases h1 : ¬ idx.toNat < s.total_pages
    · rw [if_pos h1] at h; simp at h
    · rw [if_neg h1] at h
      by_cases h2 : (s.page_blocks idx.toNat).is_allocated = false
      · rw [if_pos h2] at h
        simp only [Option.some.injEq, Prod.mk.injEq] at h
        exact Or.inl ⟨h.1.symm, h.2.symm⟩
      · rw [if_neg h2] at h
        simp only at h
        cases hm : return_merge MAXRANK { s with page_blocks := setAt s.page_blocks idx.toNat { (s.page_blocks idx.toNat) with is_allocated := false } } idx.toNat (setAt s.page_blocks idx.toNat { (s.page_blocks idx.toNat) with is_allocated := false } idx.toNat).rank with
        | none => rw [hm] at h; simp at h
        | some x =>
          obtain ⟨s2, p2, r2⟩ := x
          rw [hm] at h
          simp only at h
          cases hl : list_add s2 r2 p2 with
          | none => rw [hl] at h; simp at h
          | some s3 =>
            rw [hl] at h
            simp only [Option.some.injEq, Prod.mk.injEq] at h
            obtain ⟨hc, hs⟩ := h
            subst hc hs
            obtain ⟨hb, ht, hf⟩ := same_alloc_trans (return_merge_same_alloc _ _ _ _ _ _ _ hm)
              (list_add_same_alloc hl)
            refine Or.inr ⟨rfl, by omega, by omega, hb, ht, fun i => ?_⟩
            rw [hf i]
            simp only [setAt_apply]
            split_ifs with hi
            · rfl
            · rfl

/-- While `total_pages * PAGE_SIZE` fits an `int`, no step of
`get_page_index` wraps. -/
theorem get_page_index_fit (s : State) (a : Int)
    (hfit : (s.total_pages : Int) * PAGE_SIZE < 2 ^ 31) :
    get_page_index s a =
      if a < s.memory_base ∨ a ≥ s.memory_base + (s.total_pages : Int) * PAGE_SIZE then -1
      else if (a - s.memory_base) % PAGE_SIZE ≠ 0 then -1
      else (a - s.memory_base) / PAGE_SIZE := by
  have hN : (0 : Int) ≤ (s.total_pages : Int) * PAGE_SIZE := by unfold PAGE_SIZE; omega
  unfold get_page_index
  rw [wrap32_of_range _ (by omega) hfit, ptr_add_of_nonneg _ _ hN]
  by_cases h1 : a < s.memory_base ∨ a ≥ s.memory_base + (s.total_pages : Int) * PAGE_SIZE
  · rw [if_pos h1, if_pos h1]
  · rw [if_neg h1, if_neg h1]
    have h0 : 0 ≤ a - s.memory_base := by omega
    have h2 : a - s.memory_base < 2 ^ 31 := by omega
    have hq : 0 ≤ (a - s.memory_base) / PAGE_SIZE ∧ (a - s.memory_base) / PAGE_SIZE < 2 ^ 31 := by
      unfold PAGE_SIZE; omega
    simp only
    rw [wrap64_of_range _ (by omega) (by omega), Int.tmod_eq_emod h0 (by unfold PAGE_SIZE; omega),
      Int.tdiv_eq_ediv h0 (by unfold PAGE_SIZE; omega), wrap32_of_range _ (by omega) hq.2]

theorem get_page_index_cases (s : State) (a : Int)
    (hfit : (s.total_pages : Int) * PAGE_SIZE < 2 ^ 31) :
    get_page_index s a = -1 ∨
      (0 ≤ get_page_index s a ∧ a = s.memory_base + get_page_index s a * PAGE_SIZE ∧
        get_page_index s a * PAGE_SIZE < 2 ^ 31 ∧ (get_page_index s a).toNat < s.total_pages) := by
  rw [get_page_index_fit s a hfit]
  unfold PAGE_SIZE at *
  by_cases h1 : a < s.memory_base ∨ a ≥ s.memory_base + (s.total_pages : Int) * (4 * 1024)
  · left; rw [if_pos h1]
  · rw [if_neg h1]
    by_cases h2 : (a - s.memory_base) % (4 * 1024) ≠ 0
    · left; rw [if_pos h2]
    · rw [if_neg h2]
      right
      refine ⟨by omega, by omega, by omega, by omega⟩

theorem get_page_index_outside (s : State) (a : Int)
    (hfit : (s.total_pages : Int) * PAGE_SIZE < 2 ^ 31)
    (h : a < s.memory_base ∨ a ≥ s.memory_base + (s.total_pages : Int) * PAGE_SIZE ∨
      (a - s.memory_base) % PAGE_SIZE ≠ 0) :
    get_page_index s a = -1 := by
  rw [get_page_index_fit s a hfit]
  by_cases h1 : a < s.memory_base ∨ a ≥ s.memory_base + (s.total_pages : Int) * PAGE_SIZE
  · rw [if_pos h1]
  · rw [if_neg h1]
    by_cases h2 : (a - s.memory_base) % PAGE_SIZE ≠ 0
    · rw [if_pos h2]
    · exfalso
      rcases h with h | h | h
      · exact h1 (Or.inl h)
      · exact h1 (Or.inr h)
      · exact h2 h

/-! ## `return_pages` on an address that is not live -/

theorem call_flags_live {s s1 : State} {l : Int → Bool} {c : Call} {r : Ret}
    (hfit : (s.total_pages : Int) * PAGE_SIZE < 2 ^ 31)
    (hl : flags_live s l) (h : call s c = some (r, s1)) :
    flags_live s1 (fun a => live_step a (l a) c r) ∧ s1.memory_base = s.memory_base ∧
      s1.total_pages = s.total_pages := by
  cases c with
  | alloc rank =>
    simp only [call, alloc_pages_eq] at h
    cases hi : alloc_pages_idx s rank with
    | none => rw [hi] at h; simp at h
    | some x =>
      obtain ⟨o, s2⟩ := x
      rw [hi] at h
      obtain ⟨hb, ht, hf⟩ := alloc_pages_idx_flags hi
      cases o with
      | invalid =>
        simp only [Option.some.injEq, Prod.mk.injEq] at h
        obtain ⟨h1, h2⟩ := h
        subst h1 h2
        simp only at hf
        subst hf
        exact ⟨fun i hi1 hi2 => hl i hi1 hi2, rfl, rfl⟩
      | nospace =>
        simp only [Option.some.injEq, Prod.mk.injEq] at h
        obtain ⟨h1, h2⟩ := h
        subst h1 h2
        simp only at hf
        subst hf
        exact ⟨fun i hi1 hi2 => hl i hi1 hi2, rfl, rfl⟩
      | page q =>
        simp only [Option.some.injEq, Prod.mk.injEq] at h
        obtain ⟨h1, h2⟩ := h
        subst h1 h2
        simp only at hf
        refine ⟨fun i hi1 hi2 => ?_, hb, ht⟩
        simp only [live_step]
        rw [hf i] at hi2
        by_cases hq : i = q
        · subst hq
          have : get_page_addr s2 i = s2.memory_base + (i : Int) * PAGE_SIZE := by
            unfold get_page_addr
            rw [wrap32_of_range _ (by unfold PAGE_SIZE; omega) hi1,
              ptr_add_of_nonneg _ _ (by unfold PAGE_SIZE; omega)]
          rw [if_pos this]
        · rw [if_neg hq] at hi2
          have := hl i hi1 hi2
          rw [hb]
          split_ifs
          · rfl
          · exact this
  | free p =>
    simp only [call, return_pages] at h
    cases hi : return_pages_idx s (get_page_index s p) with
    | none => rw [hi] at h; simp at h
    | some x =>
      obtain ⟨c, s2⟩ := x
      rw [hi] at h
      simp only [Option.some.injEq, Prod.mk.injEq] at h
      obtain ⟨h1, h2⟩ := h
      subst h1 h2
      rcases return_pages_idx_flags hi with ⟨hc, hs⟩ | ⟨hc, h0, hlt, hb, ht, hf⟩
      · subst hs
        refine ⟨fun i hi1 hi2 => ?_, rfl, rfl⟩
        simp only [live_step]
        have hne : ¬ (p = s2.memory_base + (i : Int) * PAGE_SIZE ∧ c = OK) := by
          rintro ⟨_, h3⟩
          rw [hc] at h3
          simp [EINVAL, OK] at h3
        rw [if_neg hne]
        exact hl i hi1 hi2
      · refine ⟨fun i hi1 hi2 => ?_, hb, ht⟩
        simp only [live_step]
        rw [hf i] at hi2
        by_cases hq : i = (get_page_index s p).toNat
        · rw [if_pos hq] at hi2
          simp at hi2
        · rw [if_neg hq] at hi2
          have hne : ¬ (p = s2.memory_base + (i : Int) * PAGE_SIZE ∧ c = OK) := by
            rintro ⟨h3, _⟩
            rcases get_page_index_cases s p hfit with h4 | ⟨_, h5, _, _⟩
            · omega
            · apply hq
              rw [hb] at h3
              unfold PAGE_SIZE at h3 h5
              omega
          rw [if_neg hne, hb]
          exact hl i hi1 hi2

theorem run_flags_live : ∀ (cs : List Call) (s s1 : State) (l : Int → Bool) (rs : List Ret),
    (s.total_pages : Int) * PAGE_SIZE < 2 ^ 31 → flags_live s l → run s cs = some (rs, s1) →
      flags_live s1 (fun a => live_from a (l a) cs rs) ∧ s1.memory_base = s.memory_base ∧
        s1.total_pages = s.total_pages := by
  intro cs
  induction cs with
  | nil =>
    intro s s1 l rs _ hl h
    simp only [run, Option.some.injEq, Prod.mk.injEq] at h
    obtain ⟨h1, h2⟩ := h
    subst h1 h2
    exact ⟨fun i hi1 hi2 => hl i hi1 hi2, rfl, rfl⟩
  | cons c cs ih =>
    intro s s1 l rs hfit hl h
    simp only [run] at h
    cases hc : call s c with
    | none => rw [hc] at h; simp at h
    | some x =>
      obtain ⟨r, s2⟩ := x
      rw [hc] at h
      simp only at h
      cases hr : run s2 cs with
      | none => rw [hr] at h; simp at h
      | some y =>
        obtain ⟨rs2, s3⟩ := y
        rw [hr] at h
        simp only [Option.some.injEq, Prod.mk.injEq] at h
        obtain ⟨h1, h2⟩ := h
        subst h1 h2
        obtain ⟨hl2, hb2, ht2⟩ := call_flags_live hfit hl hc
        obtain ⟨hl3, hb3, ht3⟩ := ih s2 s3 _ rs2 (by rw [ht2]; exact hfit) hl2 hr
        exact ⟨hl3, hb3.trans hb2, ht3.trans ht2⟩

/-- While `N * PAGE_SIZE` fits an `int`: in the state after
`init_page(base, N)` and any sequence of `alloc_pages` and `return_pages`
calls, `return_pages(a)` returns `-EINVAL` and leaves the state as it is
whenever `a` is below `base`, at or beyond `base + N * PAGE_SIZE`, not a
whole number of pages from `base`, or not live: never returned by
`alloc_pages`, or released by a successful `return_pages` since
`alloc_pages` last returned it. -/
theorem return_pages_rejects (base : Int) (N : Nat) (cs : List Call) (rs : List Ret)
    (s : State) (a : Int) (hfit : (N : Int) * PAGE_SIZE < 2 ^ 31)
    (hs : session base N cs = some (rs, s))
    (ha : a < base ∨ a ≥ base + (N : Int) * PAGE_SIZE ∨ (a - base) % PAGE_SIZE ≠ 0 ∨
      live_after a cs rs = false) :
    return_pages s a = some (-EINVAL, s) := by
  unfold session at hs
  cases hi : init_page base N with
  | none => rw [hi] at hs; simp at hs
  | some x =>
    obtain ⟨c, s0⟩ := x
    rw [hi] at hs
    simp only at hs
    obtain ⟨_, hb0, ht0, hf0⟩ := init_page_flags hi
    have hl0 : flags_live s0 (fun _ => false) := by
      intro i _ h2
      rw [hf0 i] at h2
      simp at h2
    obtain ⟨hl, hb, ht⟩ := run_flags_live cs s0 s _ rs (by rw [ht0]; exact hfit) hl0 hs
    rw [hb0] at hb
    rw [ht0] at ht
    unfold return_pages
    rcases get_page_index_cases s a (by rw [ht]; exact hfit) with h1 | ⟨h1, h2, h3, h4⟩
    · rw [h1]
      rfl
    · have hlive : live_after a cs rs = false := by
        rcases ha with h | h | h | h
        · exfalso; rw [hb] at h2; unfold PAGE_SIZE at h2; omega
        · exfalso; rw [hb] at h2; rw [ht] at h4; unfold PAGE_SIZE at h2 h; omega
        · exfalso; rw [hb] at h2; unfold PAGE_SIZE at h2 h; omega
        · exact h
      have hflag : (s.page_blocks (get_page_index s a).toNat).is_allocated = false := by
        by_contra hne
        have htrue : (s.page_blocks (get_page_index s a).toNat).is_allocated = true := by
          simpa using hne
        have hcast : (((get_page_index s a).toNat : Nat) : Int) = get_page_index s a :=
          Int.toNat_of_nonneg h1
        have := hl (get_page_index s a).toNat (by rw [hcast]; exact h3) htrue
        simp only at this
        rw [hcast, ← h2] at this
        unfold live_after at hlive
        rw [hlive] at this
        simp at this
      unfold return_pages_idx
      rw [if_neg (by omega), if_neg (by omega), if_pos hflag]

theorem return_pages_rejects_witness :
    live_after 0 [Call.alloc 1, Call.free 0] [Ret.ptr (void_ptr.addr 0), Ret.code OK] = false ∧
      return_pages ((session 0 4 [Call.alloc 1, Call.free 0]).getD ([], init_reset 0 4)).2 0 =
        some (-EINVAL, ((session 0 4 [Call.alloc 1, Call.free 0]).getD ([], init_reset 0 4)).2) :=
  ⟨by decide,
    return_pages_rejects 0 4 [Call.alloc 1, Call.free 0] [Ret.ptr (void_ptr.addr 0), Ret.code OK]
      _ 0 (by decide) (eq_some_of_fst _ _ _ (by decide)) (Or.inr (Or.inr (Or.inr (by decide))))⟩

/-! ## The free lists as doubly linked chains -/

theorem Linked_congr {pb pb1 : Nat → page_block_t} {n : Nat} : ∀ {l : List Nat} {p : Nat},
    (∀ x ∈ l, (pb1 x).next = (pb x).next ∧ (pb1 x).prev = (pb x).prev) →
    Linked pb n p l → Linked pb1 n p l := by
  intro l
  induction l with
  | nil => intro p _ _; trivial
  | cons y ys ih =>
    intro p hc h
    obtain ⟨h1, h2, h3, h4, h5⟩ := h
    have hy := hc y (List.mem_cons_self _ _)
    exact ⟨h1, h2, hy.2.trans h3, hy.1.trans h4,
      ih (fun x hx => hc x (List.mem_cons_of_mem _ hx)) h5⟩

theorem AreaRep_congr {s s1 : State} {k : Nat} {l : List Nat} {z : Bool}
    (h : AreaRep s k l z) (ha : s1.free_areas k = s.free_areas k)
    (ht : s1.total_pages = s.total_pages)
    (hl : ∀ x, (x ∈ l ∨ (x = 0 ∧ z = true)) →
      (s1.page_blocks x).next = (s.page_blocks x).next ∧
        (s1.page_blocks x).prev = (s.page_blocks x).prev) :
    AreaRep s1 k l z := by
  refine ⟨by rw [ha]; exact h.head_eq, by rw [ha]; exact h.tail_eq, by rw [ha]; exact h.count_eq,
    ?_, h.nodup, ?_⟩
  · rw [ht]
    exact Linked_congr (fun x hx => hl x (Or.inl hx)) h.linked
  · intro hz
    obtain ⟨h1, h2, h3⟩ := h.zero hz
    have := hl 0 (Or.inr ⟨rfl, hz⟩)
    exact ⟨by rw [ht]; exact h1, this.1.trans h2, this.2.trans h3⟩

theorem Rep_congr {s s1 : State} {F : Nat → Nat → Prop} (h : Rep s F)
    (ha : s1.free_areas = s.free_areas) (ht : s1.total_pages = s.total_pages)
    (hl : ∀ x, (s1.page_blocks x).next = (s.page_blocks x).next ∧
      (s1.page_blocks x).prev = (s.page_blocks x).prev) :
    Rep s1 F := by
  obtain ⟨L, z, hA, hF⟩ := h
  exact ⟨L, z, fun k => AreaRep_congr (hA k) (by rw [ha]) ht (fun x _ => hl x), hF⟩

theorem Rep_set_rank {s : State} {F : Nat → Nat → Prop} (h : Rep s F) (i r : Nat) :
    Rep { s with page_blocks := setAt s.page_blocks i { (s.page_blocks i) with rank := r } } F := by
  refine Rep_congr h rfl rfl (fun x => ?_)
  simp only [setAt_apply]
  split_ifs with hx
  · subst hx; exact ⟨rfl, rfl⟩
  · exact ⟨rfl, rfl⟩

/-- C11: after `init_page(4294967296, 524288)`, `alloc_pages(1)` returns the
address 4429185024 of page 32768, and `query_ranks` on this address returns
`-EINVAL`, not the rank 1. -/
theorem query_ranks_rejects_returned_address :
    (session 4294967296 524288 [Call.alloc 1]).map
        (fun x => (x.1, query_ranks x.2 4429185024)) =
      some ([Ret.ptr (void_ptr.addr 4429185024)], some (-EINVAL)) := by
  decide

/-- C12: with 524288 pages at base 4294967296, the address 4429185024 lies in
`[base, base + N * PAGE_SIZE)` and is a multiple of `PAGE_SIZE` from the
base (it is the address `get_page_addr` gives page 32768), and
`get_page_index` returns -1 on it; so it does on the base address itself. -/
theorem get_page_index_rejects_inside :
    ((4294967296 : Int) ≤ 4429185024 ∧ (4429185024 : Int) < 4294967296 + 524288 * PAGE_SIZE ∧
        ((4429185024 : Int) - 4294967296) % PAGE_SIZE = 0) ∧
      (init_page 4294967296 524288).map
          (fun x => (x.2.memory_base, x.2.total_pages, get_page_index x.2 4294967296,
            get_page_index x.2 4429185024, get_page_addr x.2 32768)) =
        some (4294967296, 524288, -1, -1, 4429185024) := by
  decide

/-- C7, at its failing input.  After `init_page(0, 524288)` the bound
`memory_base + total_pages * PAGE_SIZE` is the pointer `2^64 - 2^31`, so
`get_page_index` lets pass every page-aligned address from the base up.  The
address 6442450944 lies beyond the region (`0 + 524288 * PAGE_SIZE` is
2147483648) and was never returned by `alloc_pages`: `get_page_index` gives
1572864 and `return_pages` reads `page_blocks[1572864]`, outside the array of
524288 entries, where the claim has it return `-EINVAL`.  After one
`alloc_pages(1)`, which returns address 134217728 of page 32768, the address
17592320262144 (that address plus `2^44`) lies beyond the region and is not
live either: its quotient 4295000064 is returned as the `int` 32768, and
`return_pages` of it returns `OK` and clears the flag of page 32768. -/
theorem return_pages_accepts_outside_region :
    (session 0 524288 []).map (fun x =>
        ([decide ((6442450944 : Int) ≥ x.2.memory_base + (x.2.total_pages : Int) * PAGE_SIZE),
            live_after 6442450944 [] x.1],
          get_page_index x.2 6442450944, (return_pages x.2 6442450944).map Prod.fst)) =
        some ([true, false], 1572864, none) ∧
      (session 0 524288 [Call.alloc 1]).map (fun x =>
        (x.1,
          [decide ((17592320262144 : Int) ≥
              x.2.memory_base + (x.2.total_pages : Int) * PAGE_SIZE),
            live_after 17592320262144 [Call.alloc 1] x.1, (x.2.page_blocks 32768).is_allocated],
          get_page_index x.2 17592320262144)) =
        some ([Ret.ptr (void_ptr.addr 134217728)], [true, false, true], 32768) ∧
      (session 0 524288 [Call.alloc 1, Call.free 17592320262144]).map (fun x =>
        (x.1, (x.2.page_blocks 32768).is_allocated)) =
        some ([Ret.ptr (void_ptr.addr 134217728), Ret.code OK], false) := by
  decide

/-- C19: after `init_page(4294967296, 524288)`, `alloc_pages(1)` returns the
address 4429185024, and `return_pages` on it returns `-EINVAL`, not `OK`; the
block stays allocated and the counts stay as the allocation left them (rank
16: 15, ranks 1..15: 1), not as `init_page` left them (rank 16: 16). -/
theorem fresh_round_trip_rejected :
    (init_page 4294967296 524288).map (fun x => counts x.2) =
        some [0, 0, 0, 0, 0, 0, 0, 0, 0, 0, 0, 0, 0, 0, 0, 16] ∧
      (session 4294967296 524288 [Call.alloc 1, Call.free 4429185024]).map
          (fun x => (x.1, counts x.2)) =
        some ([Ret.ptr (void_ptr.addr 4429185024), Ret.code (-EINVAL)],
          [1, 1, 1, 1, 1, 1, 1, 1, 1, 1, 1, 1, 1, 1, 1, 15]) := by
  decide

/-! ## Page 0 and the null link, continued -/

/-- C13: after `init_page(0, 4)`, four `alloc_pages(1)` calls, `return_pages`
of pages 2, 0, 3, `alloc_pages(1)`, `return_pages` of page 1,
`alloc_pages(2)`, `return_pages` of page 0 and `alloc_pages(2)`, the last
call has returned the address 4096 of page 1: page 1 has its `is_allocated`
flag set and rank 2, and 1 is not a multiple of `2^(2-1)`. -/
theorem allocated_block_misaligned :
    (session 0 4 [Call.alloc 1, Call.alloc 1, Call.alloc 1, Call.alloc 1, Call.free 8192,
        Call.free 0, Call.free 12288, Call.alloc 1, Call.free 4096, Call.alloc 2, Call.free 0,
        Call.alloc 2]).map
        (fun x => (x.1.getLast?, (x.2.page_blocks 1).is_allocated, (x.2.page_blocks 1).rank,
          1 % 2 ^ ((x.2.page_blocks 1).rank - 1))) =
      some (some (Ret.ptr (void_ptr.addr 4096)), true, 2, 1) := by
  decide

/-- C15: `init_page(0, 65536)` enqueues page 0 and then page 32768 in Free
Area 16.  Read from the head by the `next` links the area holds page 32768
alone, with count 2, and `alloc_pages(16)` returns the address 134217728 of
page 32768, the block enqueued second. -/
theorem list_add_loses_page_zero :
    (init_page 0 65536).map (fun x => (x.2.queued 16, area_blocks x.2 16,
        query_page_counts x.2 16)) = some ([0, 32768], [32768], 2) ∧
      (session 0 65536 [Call.alloc 16]).map Prod.fst =
        some [Ret.ptr (void_ptr.addr 134217728)] := by
  decide

/-- C18: after `init_page(0, 3)`, three `alloc_pages(1)` calls,
`return_pages` of pages 0, 2, 1, `alloc_pages(1)` and `return_pages` of
page 0, `query_page_counts(1)` is -1. -/
theorem count_negative :
    (session 0 3 [Call.alloc 1, Call.alloc 1, Call.alloc 1, Call.free 0, Call.free 8192,
        Call.free 4096, Call.alloc 1, Call.free 0]).map
        (fun x => (x.1, query_page_counts x.2 1)) =
      some ([Ret.ptr (void_ptr.addr 8192), Ret.ptr (void_ptr.addr 0), Ret.ptr (void_ptr.addr 4096),
        Ret.code OK, Ret.code OK, Ret.code OK, Ret.ptr (void_ptr.addr 0), Ret.code OK], -1) := by
  decide

/-! ## `get_buddy_index` -/

theorem xor_two_pow_of_even (a k : Nat) :
    (2 ^ (k + 1) * a) ^^^ 2 ^ k = 2 ^ (k + 1) * a + 2 ^ k := by
  apply Nat.eq_of_testBit_eq
  intro j
  have hlt : 2 ^ k < 2 ^ (k + 1) := Nat.pow_lt_pow_right (by norm_num) (Nat.lt_succ_self k)
  rw [Nat.testBit_xor, Nat.testBit_mul_pow_two, Nat.testBit_mul_pow_two_add a hlt j]
  by_cases hj : j < k + 1
  · have : ¬ j ≥ k + 1 := by omega
    simp [hj, this]
  · have h1 : j ≥ k + 1 := by omega
    have h2 : k ≠ j := by omega
    simp [hj, h1, Nat.testBit_two_pow_of_ne h2]

theorem xor_xor_cancel (x y : Nat) : (x ^^^ y) ^^^ y = x := by
  rw [Nat.xor_assoc, Nat.xor_self, Nat.xor_zero]

theorem xor_two_pow_of_odd (a k : Nat) :
    (2 ^ (k + 1) * a + 2 ^ k) ^^^ 2 ^ k = 2 ^ (k + 1) * a := by
  rw [← xor_two_pow_of_even, xor_xor_cancel]

/-- C17: for every rank `r` in 1..MAXRANK, with `s = 2^(r-1)`, and every
index `idx` that is a multiple of `s`, `get_buddy_index(idx, r)` is
`idx XOR s`, is a multiple of `s`, differs from `idx` by exactly `s`, lies in
the same `2s`-aligned region as `idx`, and has `idx` as its own buddy. -/
theorem get_buddy_index_spec (idx r : Nat) (_hr1 : 1 ≤ r) (_hr2 : r ≤ MAXRANK)
    (hm : idx % 2 ^ (r - 1) = 0) :
    get_buddy_index idx r = idx ^^^ 2 ^ (r - 1) ∧
      get_buddy_index idx r % 2 ^ (r - 1) = 0 ∧
      (get_buddy_index idx r = idx + 2 ^ (r - 1) ∨ get_buddy_index idx r + 2 ^ (r - 1) = idx) ∧
      idx / (2 * 2 ^ (r - 1)) = get_buddy_index idx r / (2 * 2 ^ (r - 1)) ∧
      get_buddy_index (get_buddy_index idx r) r = idx := by
  unfold get_buddy_index
  rw [Nat.one_shiftLeft]
  generalize r - 1 = k at hm
  have hpos : 0 < 2 ^ k := Nat.two_pow_pos k
  have hpow : 2 ^ (k + 1) = 2 * 2 ^ k := by rw [pow_succ]; ring
  obtain ⟨q, hq⟩ := Nat.dvd_of_mod_eq_zero hm
  refine ⟨rfl, ?_⟩
  rcases Nat.even_or_odd' q with ⟨a, ha | ha⟩
  · have hidx : idx = 2 ^ (k + 1) * a := by rw [hq, ha, hpow]; ring
    have hb : idx ^^^ 2 ^ k = 2 ^ (k + 1) * a + 2 ^ k := by rw [hidx, xor_two_pow_of_even]
    rw [hb, ← hb, xor_xor_cancel, hb]
    refine ⟨?_, Or.inl (by rw [hidx]), ?_, rfl⟩
    · rw [hpow, Nat.mul_assoc, Nat.mul_comm 2, Nat.mul_assoc, Nat.mul_add_mod, Nat.mod_self]
    · rw [hidx, ← hpow, Nat.mul_div_cancel_left _ (Nat.two_pow_pos _),
        Nat.mul_add_div (Nat.two_pow_pos _),
        Nat.div_eq_of_lt (Nat.pow_lt_pow_right (by norm_num) (Nat.lt_succ_self k)), Nat.add_zero]
  · have hidx : idx = 2 ^ (k + 1) * a + 2 ^ k := by rw [hq, ha, hpow]; ring
    have hb : idx ^^^ 2 ^ k = 2 ^ (k + 1) * a := by rw [hidx, xor_two_pow_of_odd]
    rw [hb, ← hb, xor_xor_cancel, hb]
    refine ⟨?_, Or.inr hidx.symm, ?_, rfl⟩
    · rw [hpow, Nat.mul_assoc, Nat.mul_comm 2, Nat.mul_assoc, Nat.mul_mod_right]
    · rw [hidx, ← hpow, Nat.mul_div_cancel_left _ (Nat.two_pow_pos _),
        Nat.mul_add_div (Nat.two_pow_pos _),
        Nat.div_eq_of_lt (Nat.pow_lt_pow_right (by norm_num) (Nat.lt_succ_self k)), Nat.add_zero]

theorem get_buddy_index_spec_witness :
    ((1 ≤ 3 ∧ 3 ≤ MAXRANK) ∧ 12 % 2 ^ (3 - 1) = 0) ∧ get_buddy_index 12 3 = 12 ^^^ 2 ^ (3 - 1) ∧
      get_buddy_index 12 3 % 2 ^ (3 - 1) = 0 ∧
      (get_buddy_index 12 3 = 12 + 2 ^ (3 - 1) ∨ get_buddy_index 12 3 + 2 ^ (3 - 1) = 12) ∧
      12 / (2 * 2 ^ (3 - 1)) = get_buddy_index 12 3 / (2 * 2 ^ (3 - 1)) ∧
      get_buddy_index (get_buddy_index 12 3) 3 = 12 :=
  ⟨by decide, get_buddy_index_spec 12 3 (by decide) (by decide) (by decide)⟩

/-! ## Links and ranks stay inside their bounds -/

theorem links_ok_init_reset (base : Int) (n : Nat) : links_ok (init_reset base n) :=
  ⟨fun _ => ⟨fun h => absurd rfl h, fun h => absurd rfl h⟩,
    fun _ => ⟨fun h => absurd rfl h, fun h => absurd rfl h⟩⟩

theorem ranks_ok_init_reset (base : Int) (n : Nat) : ranks_ok (init_reset base n) :=
  fun _ => ⟨Nat.zero_le _, fun h => by simp [init_reset] at h⟩

theorem links_ok_congr {s s1 : State} (h : links_ok s) (ha : s1.free_areas = s.free_areas)
    (ht : s1.total_pages = s.total_pages)
    (hl : ∀ x, (s1.page_blocks x).next = (s.page_blocks x).next ∧
      (s1.page_blocks x).prev = (s.page_blocks x).prev) : links_ok s1 := by
  refine ⟨fun k => ?_, fun i => ?_⟩
  · rw [ha, ht]; exact h.1 k
  · rw [(hl i).1, (hl i).2, ht]; exact h.2 i

theorem links_ok_set_rank {s : State} (h : links_ok s) (i r : Nat) :
    links_ok { s with page_blocks := setAt s.page_blocks i { (s.page_blocks i) with rank := r } } := by
  refine links_ok_congr h rfl rfl (fun x => ?_)
  simp only [setAt_apply]
  split_ifs with hx
  · subst hx; exact ⟨rfl, rfl⟩
  · exact ⟨rfl, rfl⟩

theorem links_ok_set_allocated {s : State} (h : links_ok s) (i r : Nat) :
    links_ok { s with page_blocks := setAt s.page_blocks i { (s.page_blocks i) with rank := r, is_allocated := true } } := by
  refine links_ok_congr h rfl rfl (fun x => ?_)
  simp only [setAt_apply]
  split_ifs with hx
  · subst hx; exact ⟨rfl, rfl⟩
  · exact ⟨rfl, rfl⟩

theorem links_ok_clear_allocated {s : State} (h : links_ok s) (i : Nat) :
    links_ok (clear_allocated s i) := by
  refine links_ok_congr h rfl rfl (fun x => ?_)
  simp only [clear_allocated, setAt_apply]
  split_ifs with hx
  · subst hx; exact ⟨rfl, rfl⟩
  · exact ⟨rfl, rfl⟩

theorem links_ok_list_add {s s1 : State} {area i : Nat} (h : links_ok s)
    (ha : list_add s area i = some s1) : links_ok s1 := by
  obtain ⟨⟨_, hi, _⟩, hs⟩ := list_add_eq_some ha
  subst hs
  refine ⟨fun k => ?_, fun j => ?_⟩
  · rw [list_add_state_area, list_add_state_total]
    by_cases hk : k = area
    · rw [if_pos hk]
      refine ⟨fun _ => ?_, fun _ => hi⟩
      simp only
      split_ifs with h0
      · exact hi
      · exact (h.1 area).1 h0
    · rw [if_neg hk]; exact h.1 k
  · rw [list_add_state_next, list_add_state_prev, list_add_state_total]
    refine ⟨fun hne => ?_, fun hne => ?_⟩
    · split_ifs at hne ⊢ with h1 h2
      · exact hi
      · exact absurd rfl hne
      · exact (h.2 j).1 hne
    · split_ifs at hne ⊢ with h1
      · exact (h.1 area).2 hne
      · exact (h.2 j).2 hne

theorem links_ok_list_remove {s s1 : State} {area i : Nat} (h : links_ok s)
    (ha : list_remove s area i = some s1) : links_ok s1 := by
  obtain ⟨_, hs⟩ := list_remove_eq_some ha
  subst hs
  refine ⟨fun k => ?_, fun j => ?_⟩
  · rw [list_remove_state_area, list_remove_state_total]
    by_cases hk : k = area
    · rw [if_pos hk]
      simp only
      refine ⟨fun hne => ?_, fun hne => ?_⟩
      · split_ifs at hne ⊢ with h0
        · exact (h.1 area).1 hne
        · exact (h.2 i).1 hne
      · split_ifs at hne ⊢ with h0
        · exact (h.1 area).2 hne
        · exact (h.2 i).2 hne
    · rw [if_neg hk]; exact h.1 k
  · rw [list_remove_state_next, list_remove_state_prev, list_remove_state_total]
    refine ⟨fun hne => ?_, fun hne => ?_⟩
    · split_ifs at hne ⊢ with h1 h2
      · exact absurd rfl hne
      · exact (h.2 i).1 hne
      · exact (h.2 j).1 hne
    · split_ifs at hne ⊢ with h1 h2
      · exact absurd rfl hne
      · exact (h.2 i).2 hne
      · exact (h.2 j).2 hne

theorem ranks_ok_congr {s s1 : State} (h : ranks_ok s)
    (hl : ∀ x, (s1.page_blocks x).rank = (s.page_blocks x).rank ∧
      (s1.page_blocks x).is_allocated = (s.page_blocks x).is_allocated) : ranks_ok s1 := by
  intro i
  rw [(hl i).1, (hl i).2]
  exact h i

theorem ranks_ok_list_add {s s1 : State} {area i : Nat} (h : ranks_ok s)
    (ha : list_add s area i = some s1) : ranks_ok s1 := by
  rw [(list_add_eq_some ha).2]
  exact ranks_ok_congr h
    (fun x => ⟨list_add_state_rank s area i x, list_add_state_is_allocated s area i x⟩)

theorem ranks_ok_list_remove {s s1 : State} {area i : Nat} (h : ranks_ok s)
    (ha : list_remove s area i = some s1) : ranks_ok s1 := by
  rw [(list_remove_eq_some ha).2]
  exact ranks_ok_congr h
    (fun x => ⟨list_remove_state_rank s area i x, list_remove_state_is_allocated s area i x⟩)

theorem ranks_ok_set_rank {s : State} (h : ranks_ok s) (i r : Nat) (h1 : 1 ≤ r)
    (h2 : r ≤ MAXRANK) :
    ranks_ok { s with page_blocks := setAt s.page_blocks i { (s.page_blocks i) with rank := r } } := by
  intro j
  simp only [setAt_apply]
  split_ifs with hj
  · exact ⟨h2, fun _ => h1⟩
  · exact h j

theorem ranks_ok_set_allocated {s : State} (h : ranks_ok s) (i r : Nat) (h1 : 1 ≤ r)
    (h2 : r ≤ MAXRANK) :
    ranks_ok { s with page_blocks := setAt s.page_blocks i { (s.page_blocks i) with rank := r, is_allocated := true } } := by
  intro j
  simp only [setAt_apply]
  split_ifs with hj
  · exact ⟨h2, fun _ => h1⟩
  · exact h j

theorem ranks_ok_clear_allocated {s : State} (h : ranks_ok s) (i : Nat) :
    ranks_ok (clear_allocated s i) := by
  intro j
  simp only [clear_allocated, setAt_apply]
  split_ifs with hj
  · subst hj
    exact ⟨(h j).1, fun hh => by simp at hh⟩
  · exact h j

theorem alloc_split_ok : ∀ (fuel : Nat) (s s1 : State) (c rank p : Nat),
    alloc_split fuel s c rank p = some s1 → links_ok s → ranks_ok s → 1 ≤ rank →
    c ≤ MAXRANK → links_ok s1 ∧ ranks_ok s1 := by
  intro fuel
  induction fuel with
  | zero =>
    intro s s1 c rank p h hl hr _ _
    simp only [alloc_split] at h
    split_ifs at h
    rw [← Option.some.inj h]
    exact ⟨hl, hr⟩
  | succ f ih =>
    intro s s1 c rank p h hl hr h1 h2
    simp only [alloc_split] at h
    split_ifs at h with hc hb
    · cases ha : list_add { s with page_blocks := setAt s.page_blocks (p + 1 <<< (c - 1 - 1)) { (s.page_blocks (p + 1 <<< (c - 1 - 1))) with rank := c - 1 } } (c - 1) (p + 1 <<< (c - 1 - 1)) with
      | none => rw [ha] at h; simp at h
      | some s2 =>
        rw [ha] at h
        exact ih _ _ _ _ _ h (links_ok_list_add (links_ok_set_rank hl _ _) ha)
          (ranks_ok_list_add (ranks_ok_set_rank hr _ _ (by omega) (by omega)) ha) h1 (by omega)
    · rw [← Option.some.inj h]
      exact ⟨hl, hr⟩

theorem init_carve_ok (k : Nat) (hk1 : 1 ≤ k) (hk : k ≤ MAXRANK) :
    ∀ (fuel : Nat) (s s1 : State) (cur cur1 : Nat),
      init_carve fuel s k cur = some (s1, cur1) → links_ok s → ranks_ok s →
      links_ok s1 ∧ ranks_ok s1 := by
  intro fuel
  induction fuel with
  | zero =>
    intro s s1 cur cur1 h hl hr
    simp only [init_carve] at h
    split_ifs at h
    rw [← (Prod.mk.inj (Option.some.inj h)).1]
    exact ⟨hl, hr⟩
  | succ f ih =>
    intro s s1 cur cur1 h hl hr
    simp only [init_carve] at h
    split_ifs at h with hc
    · cases ha : list_add { s with page_blocks := setAt s.page_blocks cur { (s.page_blocks cur) with rank := k } } k cur with
      | none => rw [ha] at h; simp at h
      | some s2 =>
        rw [ha] at h
        exact ih _ _ _ _ h (links_ok_list_add (links_ok_set_rank hl _ _) ha)
          (ranks_ok_list_add (ranks_ok_set_rank hr _ _ hk1 hk) ha)
    · rw [← (Prod.mk.inj (Option.some.inj h)).1]
      exact ⟨hl, hr⟩

theorem init_ranks_ok : ∀ (n : Nat), n ≤ MAXRANK → ∀ (s s1 : State) (cur cur1 : Nat),
    init_ranks n s cur = some (s1, cur1) → links_ok s → ranks_ok s →
    links_ok s1 ∧ ranks_ok s1 := by
  intro n
  induction n with
  | zero =>
    intro _ s s1 cur cur1 h hl hr
    simp only [init_ranks] at h
    rw [← (Prod.mk.inj (Option.some.inj h)).1]
    exact ⟨hl, hr⟩
  | succ r ih =>
    intro hn s s1 cur cur1 h hl hr
    simp only [init_ranks] at h
    cases hc : init_carve s.total_pages s (r + 1) cur with
    | none => rw [hc] at h; simp at h
    | some x =>
      obtain ⟨s2, cur2⟩ := x
      rw [hc] at h
      obtain ⟨hl2, hr2⟩ := init_carve_ok (r + 1) (by omega) hn _ _ _ _ _ hc hl hr
      exact ih (by omega) _ _ _ _ h hl2 hr2

theorem init_page_ok {base : Int} {n : Nat} {c : Int} {s : State}
    (h : init_page base n = some (c, s)) : links_ok s ∧ ranks_ok s := by
  unfold init_page at h
  cases hr : init_ranks MAXRANK (init_reset base n) 0 with
  | none => rw [hr] at h; simp at h
  | some x =>
    obtain ⟨s2, cur2⟩ := x
    rw [hr] at h
    simp only [Option.some.injEq, Prod.mk.injEq] at h
    rw [← h.2]
    exact init_ranks_ok MAXRANK (le_refl _) _ _ _ _ hr (links_ok_init_reset base n)
      (ranks_ok_init_reset base n)

theorem alloc_pages_idx_ok {s s1 : State} {rank : Int} {o : alloc_outcome}
    (h : alloc_pages_idx s rank = some (o, s1)) (hl : links_ok s) (hr : ranks_ok s) :
    links_ok s1 ∧ ranks_ok s1 := by
  unfold alloc_pages_idx at h
  by_cases hv : rank < 1 ∨ rank > (MAXRANK : Int)
  · rw [if_pos hv] at h
    simp only [Option.some.injEq, Prod.mk.injEq] at h
    rw [← h.2]; exact ⟨hl, hr⟩
  · rw [if_neg hv] at h
    obtain ⟨k, hk, hk1, _, _, hk4⟩ := alloc_scan_spec s (MAXRANK + 1) rank.toNat (by omega)
    rw [hk] at h
    simp only at h
    by_cases hgt : k > MAXRANK
    · rw [if_pos hgt] at h
      simp only [Option.some.injEq, Prod.mk.injEq] at h
      rw [← h.2]; exact ⟨hl, hr⟩
    · rw [if_neg hgt] at h
      cases hrem : list_remove s k (s.free_areas k).head with
      | none => rw [hrem] at h; simp at h
      | some s2 =>
        rw [hrem] at h
        simp only at h
        cases hp : alloc_split MAXRANK s2 k rank.toNat (s.free_areas k).head with
        | none => rw [hp] at h; simp at h
        | some s3 =>
          rw [hp] at h
          simp only [Option.some.injEq, Prod.mk.injEq] at h
          rw [← h.2]
          obtain ⟨hl3, hr3⟩ := alloc_split_ok _ _ _ _ _ _ hp (links_ok_list_remove hl hrem)
            (ranks_ok_list_remove hr hrem) (by omega) (by omega)
          exact ⟨links_ok_set_allocated hl3 _ _,
            ranks_ok_set_allocated hr3 _ _ (by omega) (by omega)⟩

theorem return_merge_total : ∀ (fuel : Nat) (s : State) (p rank : Nat),
    links_ok s → ranks_ok s → p < s.total_pages → 1 ≤ rank → rank ≤ MAXRANK →
    MAXRANK ≤ fuel + rank →
    ∃ s1 p1 r1, return_merge fuel s p rank = some (s1, p1, r1) ∧ links_ok s1 ∧ ranks_ok s1 ∧
      p1 < s1.total_pages ∧ r1 ≤ MAXRANK ∧ same_alloc s s1 := by
  intro fuel
  induction fuel with
  | zero =>
    intro s p rank hl hr hp h1 h2 h3
    refine ⟨s, p, rank, ?_, hl, hr, hp, h2, same_alloc_refl s⟩
    simp only [return_merge]
    rw [if_neg (by omega)]
  | succ f ih =>
    intro s p rank hl hr hp h1 h2 h3
    simp only [return_merge]
    by_cases hlt : rank < MAXRANK
    · rw [if_pos hlt, if_neg (by omega)]
      by_cases hb : ¬ get_buddy_index p rank < s.total_pages
      · rw [if_pos hb]
        exact ⟨s, p, rank, rfl, hl, hr, hp, h2, same_alloc_refl s⟩
      · rw [if_neg hb]
        by_cases hm : (s.page_blocks (get_buddy_index p rank)).is_allocated = true ∨ (s.page_blocks (get_buddy_index p rank)).rank ≠ rank
        · rw [if_pos hm]
          exact ⟨s, p, rank, rfl, hl, hr, hp, h2, same_alloc_refl s⟩
        · rw [if_neg hm]
          have hb2 : get_buddy_index p rank < s.total_pages := by
            by_contra hcon; exact hb hcon
          have hrem := @list_remove_of_ok s rank (get_buddy_index p rank) (by omega) hb2
            (hl.2 _).2 (hl.2 _).1
          rw [hrem]
          simp only
          have hl2 := links_ok_list_remove hl hrem
          have hr2 := ranks_ok_list_remove hr hrem
          have hp1 : (if p > get_buddy_index p rank then get_buddy_index p rank else p) <
              (list_remove_state s rank (get_buddy_index p rank)).total_pages := by
            show _ < s.total_pages
            split_ifs
            · exact hb2
            · exact hp
          obtain ⟨s1, p1, r1, g1, g2, g3, g4, g5, g6⟩ := ih _
            (if p > get_buddy_index p rank then get_buddy_index p rank else p) (rank + 1)
            (links_ok_set_rank hl2 _ (rank + 1))
            (ranks_ok_set_rank hr2 _ (rank + 1) (by omega) (by omega)) hp1 (by omega) (by omega)
            (by omega)
          exact ⟨s1, p1, r1, g1, g2, g3, g4, g5,
            same_alloc_trans (same_alloc_trans (list_remove_same_alloc hrem)
              (same_alloc_set_rank _ _ _)) g6⟩
    · rw [if_neg hlt]
      exact ⟨s, p, rank, rfl, hl, hr, hp, h2, same_alloc_refl s⟩

theorem return_merge_fuel_succ : ∀ (fuel : Nat) (s : State) (p rank : Nat)
    (x : State × Nat × Nat), return_merge fuel s p rank = some x →
    return_merge (fuel + 1) s p rank = some x := by
  intro fuel
  induction fuel with
  | zero =>
    intro s p rank x h
    simp only [return_merge] at h ⊢
    split_ifs at h with h1
    rw [if_neg h1]
    exact h
  | succ f ih =>
    intro s p rank x h
    rw [return_merge] at h ⊢
    by_cases h1 : rank < MAXRANK
    · rw [if_pos h1] at h ⊢
      by_cases h2 : rank = 0
      · rw [if_pos h2] at h; simp at h
      · rw [if_neg h2] at h ⊢
        by_cases h3 : ¬ get_buddy_index p rank < s.total_pages
        · rw [if_pos h3] at h ⊢; exact h
        · rw [if_neg h3] at h ⊢
          by_cases h4 : (s.page_blocks (get_buddy_index p rank)).is_allocated = true ∨ (s.page_blocks (get_buddy_index p rank)).rank ≠ rank
          · rw [if_pos h4] at h ⊢; exact h
          · rw [if_neg h4] at h ⊢
            cases hl : list_remove s rank (get_buddy_index p rank) with
            | none => rw [hl] at h; simp at h
            | some s2 =>
              rw [hl] at h
              exact ih _ _ _ _ h
    · rw [if_neg h1] at h ⊢; exact h

/-! ## `return_pages` past its validation -/

/-- Past its validation `return_pages` completes: the coalescing loop needs
no more than `MAXRANK - 1` iterations, every access is in bounds, the block
is enqueued and the call returns `OK` with the flag of the page cleared. -/
theorem return_pages_idx_total {s : State} {idx : Int} (hl : links_ok s) (hr : ranks_ok s)
    (h0 : 0 ≤ idx) (hN : idx.toNat < s.total_pages)
    (hf : (s.page_blocks idx.toNat).is_allocated = true) :
    ∃ sm pm rm s1,
      return_merge (MAXRANK - 1) (clear_allocated s idx.toNat) idx.toNat
          (s.page_blocks idx.toNat).rank = some (sm, pm, rm) ∧
        pm < s.total_pages ∧ 1 ≤ (s.page_blocks idx.toNat).rank ∧ rm ≤ MAXRANK ∧
        list_add sm rm pm = some s1 ∧ return_pages_idx s idx = some (OK, s1) ∧
        (s1.page_blocks idx.toNat).is_allocated = false ∧ links_ok s1 ∧ ranks_ok s1 := by
  have hr1 : 1 ≤ (s.page_blocks idx.toNat).rank := (hr _).2 hf
  have hr2 : (s.page_blocks idx.toNat).rank ≤ MAXRANK := (hr _).1
  obtain ⟨sm, pm, rm, g1, g2, g3, g4, g5, g6⟩ := return_merge_total (MAXRANK - 1)
    (clear_allocated s idx.toNat) idx.toNat (s.page_blocks idx.toNat).rank
    (links_ok_clear_allocated hl _) (ranks_ok_clear_allocated hr _) hN hr1 hr2
    (by unfold MAXRANK at *; omega)
  have g7 := return_merge_fuel_succ _ _ _ _ _ g1
  have ht : sm.total_pages = s.total_pages := g6.2.1
  have ha := @list_add_of_ok sm rm pm g5 g4 (g2.1 rm).2
  have hl1 := links_ok_list_add g2 ha
  have hr3 := ranks_ok_list_add g3 ha
  have hfl : ((list_add_state sm rm pm).page_blocks idx.toNat).is_allocated = false := by
    rw [list_add_state_is_allocated, g6.2.2]
    simp only [clear_allocated, setAt_apply, if_pos]
  refine ⟨sm, pm, rm, list_add_state sm rm pm, g1, ht ▸ g4, hr1, g5, ha, ?_, hfl, hl1, hr3⟩
  unfold return_pages_idx
  rw [if_neg (by omega), if_neg (by omega), if_neg (by rw [hf]; simp)]
  simp only [setAt_apply, if_pos]
  have g8 : return_merge MAXRANK { s with page_blocks := setAt s.page_blocks idx.toNat { (s.page_blocks idx.toNat) with is_allocated := false } } idx.toNat (s.page_blocks idx.toNat).rank = some (sm, pm, rm) := g7
  rw [g8]
  simp only
  rw [ha]

theorem return_pages_idx_ok {s s1 : State} {idx c : Int}
    (h : return_pages_idx s idx = some (c, s1)) (hl : links_ok s) (hr : ranks_ok s) :
    links_ok s1 ∧ ranks_ok s1 := by
  by_cases h0 : idx < 0
  · unfold return_pages_idx at h
    rw [if_pos h0] at h
    simp only [Option.some.injEq, Prod.mk.injEq] at h
    rw [← h.2]; exact ⟨hl, hr⟩
  · by_cases hN : ¬ idx.toNat < s.total_pages
    · unfold return_pages_idx at h
      rw [if_neg h0, if_pos hN] at h
      simp at h
    · by_cases hf : (s.page_blocks idx.toNat).is_allocated = false
      · unfold return_pages_idx at h
        rw [if_neg h0, if_neg hN, if_pos hf] at h
        simp only [Option.some.injEq, Prod.mk.injEq] at h
        rw [← h.2]; exact ⟨hl, hr⟩
      · obtain ⟨_, _, _, s2, _, _, _, _, _, g, _, g1, g2⟩ := @return_pages_idx_total s idx hl hr
          (by omega) (by omega) (by simpa using hf)
        rw [g] at h
        simp only [Option.some.injEq, Prod.mk.injEq] at h
        rw [← h.2]; exact ⟨g1, g2⟩

theorem call_ok {s s1 : State} {c : Call} {r : Ret} (h : call s c = some (r, s1))
    (hl : links_ok s) (hr : ranks_ok s) : links_ok s1 ∧ ranks_ok s1 := by
  cases c with
  | alloc rank =>
    simp only [call, alloc_pages] at h
    cases ha : alloc_pages_idx s rank with
    | none => rw [ha] at h; simp at h
    | some x =>
      obtain ⟨o, s2⟩ := x
      rw [ha] at h
      have h2 := alloc_pages_idx_ok ha hl hr
      cases o <;> simp only [Option.some.injEq, Prod.mk.injEq] at h <;> rw [← h.2] <;> exact h2
  | free p =>
    simp only [call, return_pages] at h
    cases ha : return_pages_idx s (get_page_index s p) with
    | none => rw [ha] at h; simp at h
    | some x =>
      obtain ⟨c, s2⟩ := x
      rw [ha] at h
      simp only [Option.some.injEq, Prod.mk.injEq] at h
      rw [← h.2]
      exact return_pages_idx_ok ha hl hr

theorem run_ok : ∀ (cs : List Call) (s s1 : State) (rs : List Ret),
    run s cs = some (rs, s1) → links_ok s → ranks_ok s → links_ok s1 ∧ ranks_ok s1 := by
  intro cs
  induction cs with
  | nil =>
    intro s s1 rs h hl hr
    simp only [run, Option.some.injEq, Prod.mk.injEq] at h
    rw [← h.2]; exact ⟨hl, hr⟩
  | cons c cs ih =>
    intro s s1 rs h hl hr
    simp only [run] at h
    cases hc : call s c with
    | none => rw [hc] at h; simp at h
    | some x =>
      obtain ⟨r, s2⟩ := x
      rw [hc] at h
      simp only at h
      cases hrun : run s2 cs with
      | none => rw [hrun] at h; simp at h
      | some y =>
        obtain ⟨rs2, s3⟩ := y
        rw [hrun] at h
        simp only [Option.some.injEq, Prod.mk.injEq] at h
        rw [← h.2]
        obtain ⟨hl2, hr2⟩ := call_ok hc hl hr
        exact ih _ _ _ hrun hl2 hr2

theorem session_ok {base : Int} {n : Nat} {cs : List Call} {rs : List Ret} {s : State}
    (h : session base n cs = some (rs, s)) : links_ok s ∧ ranks_ok s := by
  unfold session at h
  cases hi : init_page base n with
  | none => rw [hi] at h; simp at h
  | some x =>
    obtain ⟨c, s0⟩ := x
    rw [hi] at h
    simp only at h
    obtain ⟨hl, hr⟩ := init_page_ok hi
    exact run_ok _ _ _ _ h hl hr

/-- In every state reached by a session, a call of `return_pages` whose
address `get_page_index` maps to a page of the array, marked allocated,
completes: at most `MAXRANK - 1` loop iterations, all accesses in bounds,
result `OK`, flag cleared. -/
theorem return_pages_completes (base : Int) (n : Nat) (cs : List Call) (rs : List Ret)
    (s : State) (a : Int) (h : session base n cs = some (rs, s))
    (hv : 0 ≤ get_page_index s a) (hN : (get_page_index s a).toNat < s.total_pages)
    (hf : (s.page_blocks (get_page_index s a).toNat).is_allocated = true) :
    ∃ sm pm rm s1,
      return_merge (MAXRANK - 1) (clear_allocated s (get_page_index s a).toNat)
          (get_page_index s a).toNat (s.page_blocks (get_page_index s a).toNat).rank =
          some (sm, pm, rm) ∧
        pm < s.total_pages ∧ 1 ≤ (s.page_blocks (get_page_index s a).toNat).rank ∧
        rm ≤ MAXRANK ∧ list_add sm rm pm = some s1 ∧ return_pages s a = some (OK, s1) ∧
        (s1.page_blocks (get_page_index s a).toNat).is_allocated = false := by
  obtain ⟨hl, hr⟩ := session_ok h
  obtain ⟨sm, pm, rm, s1, g1, g2, g3, g4, g5, g6, g7, _, _⟩ :=
    return_pages_idx_total hl hr hv hN hf
  exact ⟨sm, pm, rm, s1, g1, g2, g3, g4, g5, g6, g7⟩

/-- C16, at its failing input.  After `init_page(4294967296, 524288)` the
page 32768 that `alloc_pages(1)` returned is in range, its address 4429185024
is page-aligned and the page is marked allocated, yet `return_pages` of the
address returns `-EINVAL` and leaves the flag set. -/
theorem return_pages_rejects_allocated_page :
    (session 4294967296 524288 [Call.alloc 1]).map (fun x =>
        (x.1, (x.2.page_blocks 32768).is_allocated, decide (32768 < x.2.total_pages),
          (return_pages x.2 4429185024).map
            (fun y => (y.1, (y.2.page_blocks 32768).is_allocated)))) =
      some ([Ret.ptr (void_ptr.addr 4429185024)], true, true, some (-EINVAL, true)) := by
  decide

/-! ## The split loop of `alloc_pages`, store by store -/

theorem list_add_state_queued (s : State) (area i j : Nat) :
    (list_add_state s area i).queued j =
      if j = area then s.queued area ++ [i] else s.queued j := rfl

theorem list_remove_state_queued (s : State) (area i j : Nat) :
    (list_remove_state s area i).queued j =
      if j = area then (s.queued area).erase i else s.queued j := rfl

theorem alloc_split_effect (rank p : Nat) (hr : 1 ≤ rank) :
    ∀ (fuel : Nat) (s : State) (c : Nat), rank ≤ c → c ≤ rank + fuel → c ≤ MAXRANK →
      p + 2 ^ (c - 1) ≤ s.total_pages →
      (∀ j, rank ≤ j → j < c →
        (s.free_areas j).tail ≠ 0 → (s.free_areas j).tail < s.total_pages) →
      ∃ s1, alloc_split fuel s c rank p = some s1 ∧ s1.total_pages = s.total_pages ∧
        s1.memory_base = s.memory_base ∧
        (∀ j, rank ≤ j → j < c →
          (s1.free_areas j).count = (s.free_areas j).count + 1 ∧
            s1.queued j = s.queued j ++ [p + 2 ^ (j - 1)] ∧
            (s1.page_blocks (p + 2 ^ (j - 1))).rank = j) ∧
        (∀ j, ¬ (rank ≤ j ∧ j < c) →
          s1.free_areas j = s.free_areas j ∧ s1.queued j = s.queued j) ∧
        (∀ i, (∀ j, rank ≤ j → j < c → i ≠ p + 2 ^ (j - 1)) →
          (s1.page_blocks i).rank = (s.page_blocks i).rank) ∧
        ∀ i, (s1.page_blocks i).is_allocated = (s.page_blocks i).is_allocated := by
  intro fuel
  induction fuel with
  | zero =>
    intro s c h1 h2 _ _ _
    have hc : c = rank := by omega
    subst hc
    refine ⟨s, ?_, rfl, rfl, fun j a b => absurd b (by omega), fun _ _ => ⟨rfl, rfl⟩,
      fun _ _ => rfl, fun _ => rfl⟩
    simp only [alloc_split]
    rw [if_neg (by omega)]
  | succ f ih =>
    intro s c h1 h2 h3 h4 h5
    simp only [alloc_split]
    by_cases hc : c > rank
    · rw [if_pos hc]
      have hsh : 1 <<< (c - 1 - 1) = 2 ^ (c - 1 - 1) := Nat.one_shiftLeft _
      rw [hsh]
      have hpow : 2 ^ (c - 1) = 2 * 2 ^ (c - 1 - 1) := by
        have : c - 1 = (c - 1 - 1) + 1 := by omega
        nth_rewrite 1 [this]
        rw [pow_succ, Nat.mul_comm]
      have hpos : 0 < 2 ^ (c - 1 - 1) := Nat.two_pow_pos _
      have hb : p + 2 ^ (c - 1 - 1) < s.total_pages := by omega
      rw [if_pos hb]
      have ha := @list_add_of_ok { s with page_blocks := setAt s.page_blocks (p + 2 ^ (c - 1 - 1)) { (s.page_blocks (p + 2 ^ (c - 1 - 1))) with rank := c - 1 } }
        (c - 1) (p + 2 ^ (c - 1 - 1)) (by omega) hb (h5 (c - 1) (by omega) (by omega))
      rw [ha]
      simp only
      obtain ⟨s1, g1, g2, g3, g4, g5, g6, g7⟩ := ih (list_add_state { s with page_blocks := setAt s.page_blocks (p + 2 ^ (c - 1 - 1)) { (s.page_blocks (p + 2 ^ (c - 1 - 1))) with rank := c - 1 } } (c - 1) (p + 2 ^ (c - 1 - 1)))
        (c - 1) (by omega) (by omega) (by omega)
        (by show p + 2 ^ (c - 1 - 1) ≤ s.total_pages; omega)
        (by
          intro j a b
          rw [list_add_state_area, if_neg (by omega)]
          exact h5 j a (by omega))
      refine ⟨s1, g1, g2, g3, ?_, ?_, ?_, ?_⟩
      · intro j a b
        by_cases hj : j < c - 1
        · obtain ⟨e1, e2, e3⟩ := g4 j a hj
          rw [list_add_state_area, if_neg (by omega)] at e1
          rw [list_add_state_queued, if_neg (by omega)] at e2
          exact ⟨e1, e2, e3⟩
        · have hj2 : j = c - 1 := by omega
          subst hj2
          obtain ⟨e1, e2⟩ := g5 (c - 1) (by omega)
          have e3 := g6 (p + 2 ^ (c - 1 - 1)) (by
            intro j a2 b2
            have : 2 ^ (j - 1) < 2 ^ (c - 1 - 1) :=
              Nat.pow_lt_pow_right (by norm_num) (by omega)
            omega)
          rw [list_add_state_area, if_pos rfl] at e1
          rw [list_add_state_queued, if_pos rfl] at e2
          rw [list_add_state_rank] at e3
          simp only [setAt_apply, if_pos] at e3
          refine ⟨?_, e2, e3⟩
          rw [e1]
      · intro j hj
        obtain ⟨e1, e2⟩ := g5 j (by omega)
        rw [list_add_state_area, if_neg (by omega)] at e1
        rw [list_add_state_queued, if_neg (by omega)] at e2
        exact ⟨e1, e2⟩
      · intro i hi
        have e := g6 i (fun j a b => hi j a (by omega))
        rw [list_add_state_rank] at e
        simp only [setAt_apply] at e
        rw [if_neg (hi (c - 1) (by omega) (by omega))] at e
        exact e
      · intro i
        rw [g7, list_add_state_is_allocated]
        simp only [setAt_apply]
        split_ifs with h
        · rw [h]
        · rfl
    · have hc2 : c = rank := by omega
      subst hc2
      rw [if_neg hc]
      exact ⟨s, rfl, rfl, rfl, fun j a b => absurd b (by omega), fun _ _ => ⟨rfl, rfl⟩,
        fun _ _ => rfl, fun _ => rfl⟩

/-! ## `alloc_pages` on a block that has to be split -/

theorem alloc_scan_eq (s : State) (r k : Nat) (hrk : r ≤ k) (hk : k ≤ MAXRANK)
    (hz : ∀ j, r ≤ j → j < k → (s.free_areas j).count = 0)
    (hnz : (s.free_areas k).count ≠ 0) : alloc_scan s (MAXRANK + 1) r = some k := by
  obtain ⟨k1, g1, g2, g3, g4, _⟩ := alloc_scan_spec s (MAXRANK + 1) r (by omega)
  rw [g1]
  rcases Nat.lt_trichotomy k1 k with h | h | h
  · exact absurd (hz k1 g2 h) (g4 (by omega))
  · rw [h]
  · exact absurd (g3 k hrk h) hnz

/-- The bookkeeping of a split.  In a state where the ranks `rank..k-1` have count 0 and
rank `k <= MAXRANK` has a count other than 0 (the scan tests `count == 0`),
where `p` is the head of Free Area `k`, the block `[p, p + 2^(k-1))` lies
inside the region, and the links that the call follows (`prev` and `next` of
page `p`, the tails of the Free Areas `rank..k-1`) are null or inside
`page_blocks`: `alloc_pages(rank)` returns the address of page `p`, the count
of rank `k` drops by one, every rank `j` with `rank <= j < k` has one block
more, enqueued at page `p + 2^(j-1)` whose stored rank is `j`, the counts of
the ranks outside `rank..k` are unchanged, and page `p` has rank `rank` and
is marked allocated. -/
theorem alloc_pages_split (s : State) (rank : Int) (k p : Nat) (hr1 : 1 ≤ rank)
    (hrk : rank.toNat ≤ k) (hk : k ≤ MAXRANK)
    (hz : ∀ j, rank.toNat ≤ j → j < k → (s.free_areas j).count = 0)
    (hnz : (s.free_areas k).count ≠ 0) (hp : p = (s.free_areas k).head)
    (hb : p + 2 ^ (k - 1) ≤ s.total_pages)
    (hprev : (s.page_blocks p).prev ≠ 0 → (s.page_blocks p).prev < s.total_pages)
    (hnext : (s.page_blocks p).next ≠ 0 → (s.page_blocks p).next < s.total_pages)
    (htail : ∀ j, rank.toNat ≤ j → j < k →
      (s.free_areas j).tail ≠ 0 → (s.free_areas j).tail < s.total_pages) :
    ∃ s1, alloc_pages s rank = some (void_ptr.addr (get_page_addr s p), s1) ∧
      (s1.free_areas k).count = (s.free_areas k).count - 1 ∧
      (∀ j, rank.toNat ≤ j → j < k →
        (s1.free_areas j).count = (s.free_areas j).count + 1 ∧
          s1.queued j = s.queued j ++ [p + 2 ^ (j - 1)] ∧
          (s1.page_blocks (p + 2 ^ (j - 1))).rank = j) ∧
      (∀ j, j < rank.toNat ∨ k < j → (s1.free_areas j).count = (s.free_areas j).count) ∧
      (s1.page_blocks p).rank = rank.toNat ∧ (s1.page_blocks p).is_allocated = true := by
  have hv : ¬ (rank < 1 ∨ rank > (MAXRANK : Int)) := by omega
  have hpos : 0 < 2 ^ (k - 1) := Nat.two_pow_pos _
  have hpN : p < s.total_pages := by omega
  have hrem := @list_remove_of_ok s k p hk hpN hprev hnext
  obtain ⟨s2, g1, g2, g3, g4, g5, g6, g7⟩ := alloc_split_effect rank.toNat p (by omega) MAXRANK
    (list_remove_state s k p) k hrk (by omega) hk hb (by
      intro j a b
      rw [list_remove_state_area, if_neg (by omega)]
      exact htail j a b)
  have hidx : alloc_pages_idx s rank = some (alloc_outcome.page p,
      { s2 with page_blocks := setAt s2.page_blocks p { (s2.page_blocks p) with rank := rank.toNat, is_allocated := true } }) := by
    unfold alloc_pages_idx
    rw [if_neg hv, alloc_scan_eq s rank.toNat k hrk hk hz hnz]
    simp only
    rw [if_neg (by omega), ← hp, hrem]
    simp only
    rw [g1]
  refine ⟨{ s2 with page_blocks := setAt s2.page_blocks p { (s2.page_blocks p) with rank := rank.toNat, is_allocated := true } }, ?_, ?_, ?_, ?_, ?_, ?_⟩
  · rw [alloc_pages_eq, hidx]
    simp only
    have hbase : get_page_addr { s2 with page_blocks := setAt s2.page_blocks p { (s2.page_blocks p) with rank := rank.toNat, is_allocated := true } } p = get_page_addr s p := by
      unfold get_page_addr
      show ptr_add s2.memory_base _ = _
      rw [g3]
      rfl
    rw [hbase]
  · show (s2.free_areas k).count = _
    rw [(g5 k (by omega)).1, list_remove_state_area, if_pos rfl]
  · intro j a b
    obtain ⟨e1, e2, e3⟩ := g4 j a b
    rw [list_remove_state_area, if_neg (by omega)] at e1
    rw [list_remove_state_queued, if_neg (by omega)] at e2
    refine ⟨e1, e2, ?_⟩
    show ((setAt s2.page_blocks p _) (p + 2 ^ (j - 1))).rank = j
    have hj : 0 < 2 ^ (j - 1) := Nat.two_pow_pos _
    rw [setAt_apply, if_neg (by omega)]
    exact e3
  · intro j hj
    show (s2.free_areas j).count = _
    rw [(g5 j (by omega)).1, list_remove_state_area, if_neg (by omega)]
  · show ((setAt s2.page_blocks p _) p).rank = _
    rw [setAt_apply, if_pos rfl]
  · show ((setAt s2.page_blocks p _) p).is_allocated = _
    rw [setAt_apply, if_pos rfl]

theorem alloc_pages_split_witness :
    ((1 : Int) ≤ 1 ∧ (1 : Int).toNat ≤ 2 ∧ 2 ≤ MAXRANK ∧ (six_pages.free_areas 2).count ≠ 0 ∧
        4 = (six_pages.free_areas 2).head ∧ 4 + 2 ^ (2 - 1) ≤ six_pages.total_pages) ∧
      ∃ s1, alloc_pages six_pages 1 = some (void_ptr.addr (get_page_addr six_pages 4), s1) ∧
        (s1.free_areas 2).count = (six_pages.free_areas 2).count - 1 ∧
        (∀ j, (1 : Int).toNat ≤ j → j < 2 →
          (s1.free_areas j).count = (six_pages.free_areas j).count + 1 ∧
            s1.queued j = six_pages.queued j ++ [4 + 2 ^ (j - 1)] ∧
            (s1.page_blocks (4 + 2 ^ (j - 1))).rank = j) ∧
        (∀ j, j < (1 : Int).toNat ∨ 2 < j →
          (s1.free_areas j).count = (six_pages.free_areas j).count) ∧
        (s1.page_blocks 4).rank = (1 : Int).toNat ∧ (s1.page_blocks 4).is_allocated = true :=
  ⟨by decide, alloc_pages_split six_pages 1 2 4 (by decide) (by decide) (by decide)
    (by
      intro j h1 h2
      have hj : j = 1 := by
        have : (1 : Int).toNat = 1 := rfl
        omega
      subst hj
      decide)
    (by decide) (by decide) (by decide) (by decide) (by decide)
    (by
      intro j h1 h2
      have hj : j = 1 := by
        have : (1 : Int).toNat = 1 := rfl
        omega
      subst hj
      decide)⟩

/-- C14, at its failing input.  After `init_page(0, 4)`, four
`alloc_pages(1)`, `return_pages` of pages 0, 2, 1, `alloc_pages(1)` and
`return_pages` of page 3, the counts of ranks 1 and 2 are -1 and 2, the head
of Free Area 2 is page 2 (address 8192) and page 0 is marked allocated.  Rank
2 is the smallest rank from 1 with a count above 0, yet `alloc_pages(1)`
returns address 0, the page that is allocated already, leaves the count of
rank 2 at 2, takes the count of rank 1 to -2 and leaves page 2 unallocated. -/
theorem alloc_pages_split_wrong_block :
    (session 0 4 [Call.alloc 1, Call.alloc 1, Call.alloc 1, Call.alloc 1, Call.free 0,
        Call.free 8192, Call.free 4096, Call.alloc 1, Call.free 12288]).map
        (fun x => ([query_page_counts x.2 1, query_page_counts x.2 2], (x.2.free_areas 2).head,
          get_page_addr x.2 2, (x.2.page_blocks 0).is_allocated)) =
        some ([-1, 2], 2, 8192, true) ∧
      (session 0 4 [Call.alloc 1, Call.alloc 1, Call.alloc 1, Call.alloc 1, Call.free 0,
        Call.free 8192, Call.free 4096, Call.alloc 1, Call.free 12288, Call.alloc 1]).map
        (fun x => (x.1.getLast?, [query_page_counts x.2 1, query_page_counts x.2 2],
          (x.2.page_blocks 2).is_allocated)) =
        some (some (Ret.ptr (void_ptr.addr 0)), [-2, 2], false) := by
  decide

/-! ## The blocks carved by `init_page` -/

theorem carved_upto_nil (s : State) : ∀ (n : Nat), (∀ k, k ≤ n → s.queued k = []) →
    carved_upto s n = [] := by
  intro n
  induction n with
  | zero => intro _; rfl
  | succ n ih =>
    intro h
    simp only [carved_upto]
    rw [h (n + 1) (le_refl _), ih (fun k hk => h k (by omega))]
    rfl

theorem carved_upto_congr (s s1 : State) : ∀ (n : Nat), (∀ k, k ≤ n → s1.queued k = s.queued k) →
    carved_upto s1 n = carved_upto s n := by
  intro n
  induction n with
  | zero => intro _; rfl
  | succ n ih =>
    intro h
    simp only [carved_upto]
    rw [h (n + 1) (le_refl _), ih (fun k hk => h k (by omega))]

end Buddy
